import Mathlib

/-!
# Resource registry of FreshPlayerPlugin (`src/pp_resource.c`)

A shallow embedding of the handle table kept by `pp_resource.c` and of the
operations on it, with the two consumers `ppb_url_loader_get_response_info`
and `ppb_url_loader_read_response_body` of `src/ppb_url_loader.c`.  The table `res_tbl` (a `GArray` of `void *`) is a list of
optional objects, `none` being the `NULL` pointer.  `PP_Resource` (an
`int32_t`) and the `int` reference counter are embedded as `Int`; the
embedding assumes that neither the table length nor a counter leaves the
32-bit range.  The mutex `res_tbl_lock` is not modelled: every function is
embedded as it runs on one thread.
-/

namespace PPResource

/-- Modelled from the spec: the closed enumeration `enum pp_resource_type_e`
of `pp_resource.h` (the header is not part of the sources); the constructors
are the tags that `pp_resource_allocate` switches on. -/
inductive pp_resource_type_e where
  | PP_RESOURCE_UNKNOWN
  | PP_RESOURCE_URL_LOADER
  | PP_RESOURCE_URL_REQUEST_INFO
  | PP_RESOURCE_URL_RESPONSE_INFO
  | PP_RESOURCE_VIEW
  | PP_RESOURCE_GRAPHICS3D
  | PP_RESOURCE_IMAGE_DATA
  | PP_RESOURCE_GRAPHICS2D
  | PP_RESOURCE_NETWORK_MONITOR
  deriving DecidableEq, Repr

open pp_resource_type_e

/-- State of a payload pointer that `pp_resource_unref` passes to a bare
`free` (the `data` field of image data and 2D graphics objects): `NULL`, a
pointer to a buffer the object owns, or a pointer whose buffer has been freed
while the pointer itself was kept. -/
inductive buf_ptr where
  | null
  | owned
  | dangling
  deriving DecidableEq, Repr

/-- Result of running a piece of the C code: a value, a fault (undefined
behaviour: a `NULL` pointer dereferenced, a buffer freed twice), or the
recursion budget of the embedding used up. -/
inductive outcome (α : Type) where
  | ok (v : α)
  | fault
  | out_of_fuel
  deriving DecidableEq, Repr

/-- An object of the table: the common header (`type`, `ref_cnt`) of
`struct pp_resource_generic_s`, with the kind-specific fields the two source
files access: `url_loader` of `struct pp_url_response_info_s` (the parent
handle), `headers`, `body`, `url`, `fp`, `read_pos` of `struct pp_url_loader_s`
and `data` of `struct pp_image_data_s` and `struct pp_graphics2d_s`.
`headers`, `body` and `url` are only released through `FREE_IF_NOT_NULL`, which
resets them, so they are either `NULL` (`false`) or owned (`true`). `fp` is
the byte store behind the `FILE *`, `none` for `NULL`. -/
structure pp_resource_generic_s where
  type : pp_resource_type_e
  ref_cnt : Int
  url_loader : Int
  headers : Bool
  body : Bool
  url : Bool
  data : buf_ptr
  fp : Option (List Nat)
  read_pos : Int
  deriving DecidableEq, Repr

/-- The zero-filled block returned by `calloc(sizeof(...), 1)`, before the type
tag is written: all counters 0, all pointers `NULL`. The value of `type` is
overwritten by every caller. -/
def calloc : pp_resource_generic_s :=
  { type := PP_RESOURCE_UNKNOWN, ref_cnt := 0, url_loader := 0, headers := false,
    body := false, url := false, data := buf_ptr.null, fp := none, read_pos := 0 }

/-- The table `res_tbl`: slot `i` holds `none` for a `NULL` pointer. -/
abbrev res_tbl_t := List (Option pp_resource_generic_s)

/-- Lookup `g_array_index(res_tbl, void *, resource)`; every caller has checked
the range before. -/
def g_array_index (res_tbl : res_tbl_t) (resource : Int) : Option pp_resource_generic_s :=
  res_tbl.getD resource.toNat none

/-- The range test `resource < 1 || resource >= res_tbl->len` shared by all
entry points. -/
def out_of_range (res_tbl : res_tbl_t) (resource : Int) : Bool :=
  decide (resource < 1) || decide (resource ≥ (res_tbl.length : Int))

/-- The table built by `pp_resource_constructor`: one `NULL` slot at index 0. -/
def pp_resource_constructor : res_tbl_t := [none]

/-- The object built by `pp_resource_allocate`: the named kinds go through
`ALLOC_HELPER` (type tag and `ref_cnt = 1`); the `default` / `PP_RESOURCE_UNKNOWN`
branch writes the type tag only. -/
def alloc_obj (type : pp_resource_type_e) : pp_resource_generic_s :=
  match type with
  | PP_RESOURCE_URL_LOADER => { calloc with type := type, ref_cnt := 1 }
  | PP_RESOURCE_URL_REQUEST_INFO => { calloc with type := type, ref_cnt := 1 }
  | PP_RESOURCE_URL_RESPONSE_INFO => { calloc with type := type, ref_cnt := 1 }
  | PP_RESOURCE_VIEW => { calloc with type := type, ref_cnt := 1 }
  | PP_RESOURCE_GRAPHICS3D => { calloc with type := type, ref_cnt := 1 }
  | PP_RESOURCE_IMAGE_DATA => { calloc with type := type, ref_cnt := 1 }
  | PP_RESOURCE_GRAPHICS2D => { calloc with type := type, ref_cnt := 1 }
  | PP_RESOURCE_NETWORK_MONITOR => { calloc with type := type, ref_cnt := 1 }
  | PP_RESOURCE_UNKNOWN => { calloc with type := type }

/-- Function `pp_resource_allocate`: appends the new object and returns the
former length as the handle, with the new table. -/
def pp_resource_allocate (res_tbl : res_tbl_t) (type : pp_resource_type_e) :
    Int × res_tbl_t :=
  let ptr := alloc_obj type
  let handle : Int := res_tbl.length
  (handle, res_tbl ++ [some ptr])

/-- Function `pp_resource_expunge`: out of range nothing happens; in range the
slot's block is freed (`free(NULL)` does nothing) and the slot is set to
`NULL`. -/
def pp_resource_expunge (res_tbl : res_tbl_t) (resource : Int) : res_tbl_t :=
  if out_of_range res_tbl resource then res_tbl
  else res_tbl.set resource.toNat none

/-- Function `pp_resource_acquire_any`: `NULL` out of range, else the slot's
pointer (which may be `NULL`). -/
def pp_resource_acquire_any (res_tbl : res_tbl_t) (resource : Int) :
    Option pp_resource_generic_s :=
  if out_of_range res_tbl resource then none
  else g_array_index res_tbl resource

/-- Function `pp_resource_release`: empty body. -/
def pp_resource_release (res_tbl : res_tbl_t) (_resource : Int) : res_tbl_t := res_tbl

/-- Function `pp_resource_acquire`: reads `gr->type` of whatever
`pp_resource_acquire_any` returned, without testing it for `NULL`. -/
def pp_resource_acquire (res_tbl : res_tbl_t) (resource : Int) (type : pp_resource_type_e) :
    outcome (Option pp_resource_generic_s) :=
  match pp_resource_acquire_any res_tbl resource with
  | none => outcome.fault
  | some gr =>
    if gr.type ≠ type then
      let _ := pp_resource_release res_tbl resource
      outcome.ok none
    else outcome.ok (some gr)

/-- Function `pp_resource_get_type`: `PP_RESOURCE_UNKNOWN` out of range; in
range it reads `ptr->type` without testing `ptr` for `NULL`. -/
def pp_resource_get_type (res_tbl : res_tbl_t) (resource : Int) : outcome pp_resource_type_e :=
  if out_of_range res_tbl resource then outcome.ok PP_RESOURCE_UNKNOWN
  else match g_array_index res_tbl resource with
    | none => outcome.fault
    | some ptr => outcome.ok ptr.type

/-- Function `pp_resource_ref`: nothing out of range; in range it increments
`ptr->ref_cnt` without testing `ptr` for `NULL`. -/
def pp_resource_ref (res_tbl : res_tbl_t) (resource : Int) : outcome res_tbl_t :=
  if out_of_range res_tbl resource then outcome.ok res_tbl
  else match g_array_index res_tbl resource with
    | none => outcome.fault
    | some ptr =>
      outcome.ok (res_tbl.set resource.toNat (some { ptr with ref_cnt := ptr.ref_cnt + 1 }))

/-- The `switch (ptr->type)` of `pp_resource_unref`, run on the object whose
counter has already been decremented: returns the object after the payload
teardown and the captured `parent` handle (0 when none). Freeing a buffer that
was already freed is a fault. -/
def unref_switch (ptr : pp_resource_generic_s) : outcome (pp_resource_generic_s × Int) :=
  match ptr.type with
  | PP_RESOURCE_URL_LOADER =>
    if ptr.ref_cnt ≤ 0 then
      outcome.ok ({ ptr with headers := false, body := false, url := false }, 0)
    else outcome.ok (ptr, 0)
  | PP_RESOURCE_URL_RESPONSE_INFO => outcome.ok (ptr, ptr.url_loader)
  | PP_RESOURCE_IMAGE_DATA =>
    if ptr.ref_cnt ≤ 0 then
      match ptr.data with
      | buf_ptr.null => outcome.ok (ptr, 0)
      | buf_ptr.owned => outcome.ok ({ ptr with data := buf_ptr.dangling }, 0)
      | buf_ptr.dangling => outcome.fault
    else outcome.ok (ptr, 0)
  | PP_RESOURCE_GRAPHICS2D =>
    if ptr.ref_cnt ≤ 0 then
      match ptr.data with
      | buf_ptr.null => outcome.ok (ptr, 0)
      | buf_ptr.owned => outcome.ok ({ ptr with data := buf_ptr.dangling }, 0)
      | buf_ptr.dangling => outcome.fault
    else outcome.ok (ptr, 0)
  | _ => outcome.ok (ptr, 0)

/-- Function `pp_resource_unref` with a budget for the nested calls
`pp_resource_unref(parent)`: range test, decrement through the slot's pointer
(a fault when it is `NULL`), the type switch, and on a counter of exactly 0 the
expunge followed, for a non-zero `parent`, by the nested call. -/
def pp_resource_unref_fuel : Nat → res_tbl_t → Int → outcome res_tbl_t
  | 0, _, _ => outcome.out_of_fuel
  | fuel + 1, res_tbl, resource =>
    if out_of_range res_tbl resource then outcome.ok res_tbl
    else match g_array_index res_tbl resource with
      | none => outcome.fault
      | some obj =>
        match unref_switch { obj with ref_cnt := obj.ref_cnt - 1 } with
        | outcome.ok (ptr, parent) =>
          let tbl1 := res_tbl.set resource.toNat (some ptr)
          if ptr.ref_cnt = 0 then
            let tbl2 := pp_resource_expunge tbl1 resource
            if parent ≠ 0 then pp_resource_unref_fuel fuel tbl2 parent
            else outcome.ok tbl2
          else outcome.ok tbl1
        | outcome.fault => outcome.fault
        | outcome.out_of_fuel => outcome.out_of_fuel

/-- Function `pp_resource_unref`: every nested call follows an expunge, which
clears a slot that held an object, so one call per slot and one more is
budget enough. -/
def pp_resource_unref (res_tbl : res_tbl_t) (resource : Int) : outcome res_tbl_t :=
  pp_resource_unref_fuel (res_tbl.length + 1) res_tbl resource

/-- A call of one of the four state-changing entry points. -/
inductive call where
  | allocate (type : pp_resource_type_e)
  | ref (resource : Int)
  | unref (resource : Int)
  | expunge (resource : Int)
  deriving DecidableEq, Repr

/-- Table after one call. -/
def step (res_tbl : res_tbl_t) : call → outcome res_tbl_t
  | call.allocate type => outcome.ok (pp_resource_allocate res_tbl type).2
  | call.ref resource => pp_resource_ref res_tbl resource
  | call.unref resource => pp_resource_unref res_tbl resource
  | call.expunge resource => outcome.ok (pp_resource_expunge res_tbl resource)

/-- Table after a sequence of calls; the run stops at the first call that does
not complete. -/
def run (res_tbl : res_tbl_t) : List call → outcome res_tbl_t
  | [] => outcome.ok res_tbl
  | c :: cs =>
    match step res_tbl c with
    | outcome.ok tbl => run tbl cs
    | outcome.fault => outcome.fault
    | outcome.out_of_fuel => outcome.out_of_fuel

/-- A table the process can be in: the result of a completed sequence of
calls on the table of `pp_resource_constructor`. -/
def reachable (res_tbl : res_tbl_t) : Prop :=
  ∃ cs : List call, run pp_resource_constructor cs = outcome.ok res_tbl

/-- Iterated `pp_resource_ref` on one handle. -/
def ref_n (res_tbl : res_tbl_t) (resource : Int) : Nat → outcome res_tbl_t
  | 0 => outcome.ok res_tbl
  | n + 1 =>
    match pp_resource_ref res_tbl resource with
    | outcome.ok tbl => ref_n tbl resource n
    | outcome.fault => outcome.fault
    | outcome.out_of_fuel => outcome.out_of_fuel

/-- Iterated `pp_resource_unref` on one handle. -/
def unref_n (res_tbl : res_tbl_t) (resource : Int) : Nat → outcome res_tbl_t
  | 0 => outcome.ok res_tbl
  | n + 1 =>
    match pp_resource_unref res_tbl resource with
    | outcome.ok tbl => unref_n tbl resource n
    | outcome.fault => outcome.fault
    | outcome.out_of_fuel => outcome.out_of_fuel

/-- The URL loader object after the decrement and the type switch of
`pp_resource_unref`. -/
def loader_after_unref (l : pp_resource_generic_s) : pp_resource_generic_s :=
  if l.ref_cnt - 1 ≤ 0 then
    { l with ref_cnt := l.ref_cnt - 1, headers := false, body := false, url := false }
  else { l with ref_cnt := l.ref_cnt - 1 }

/-- A call of one of the eight entry points of `pp_resource.c`. -/
inductive api_call where
  | allocate (type : pp_resource_type_e)
  | acquire_any (resource : Int)
  | acquire (resource : Int) (type : pp_resource_type_e)
  | release (resource : Int)
  | get_type (resource : Int)
  | ref (resource : Int)
  | unref (resource : Int)
  | expunge (resource : Int)
  deriving DecidableEq, Repr

/-- Table after one entry-point call. The bodies of `pp_resource_acquire_any`
and `pp_resource_get_type` contain no store, so when they complete the table
is the one they were called on; `pp_resource_acquire` in addition calls
`pp_resource_release` when the type tags differ. -/
def api_step (res_tbl : res_tbl_t) : api_call → outcome res_tbl_t
  | api_call.allocate type => outcome.ok (pp_resource_allocate res_tbl type).2
  | api_call.acquire_any _ => outcome.ok res_tbl
  | api_call.acquire resource type =>
    match pp_resource_acquire res_tbl resource type with
    | outcome.ok (some _) => outcome.ok res_tbl
    | outcome.ok none => outcome.ok (pp_resource_release res_tbl resource)
    | outcome.fault => outcome.fault
    | outcome.out_of_fuel => outcome.out_of_fuel
  | api_call.release resource => outcome.ok (pp_resource_release res_tbl resource)
  | api_call.get_type resource =>
    match pp_resource_get_type res_tbl resource with
    | outcome.ok _ => outcome.ok res_tbl
    | outcome.fault => outcome.fault
    | outcome.out_of_fuel => outcome.out_of_fuel
  | api_call.ref resource => pp_resource_ref res_tbl resource
  | api_call.unref resource => pp_resource_unref res_tbl resource
  | api_call.expunge resource => outcome.ok (pp_resource_expunge res_tbl resource)

/-- A store `ri->url_loader = loader` through the pointer held in a slot; a
fault when that pointer is `NULL`. -/
def store_url_loader (res_tbl : res_tbl_t) (resource : Int) (loader : Int) :
    outcome res_tbl_t :=
  match g_array_index res_tbl resource with
  | none => outcome.fault
  | some ri => outcome.ok (res_tbl.set resource.toNat (some { ri with url_loader := loader }))

/-- Function `ppb_url_loader_get_response_info` of `ppb_url_loader.c`: acquire
the loader, allocate a response info (the argument `ul->_.instance` of that
call reads through `ul`, a fault when `ul` is `NULL`; `pp_resource_allocate` of
`pp_resource.c` has no such parameter), acquire it, release the loader, ref
the loader, store the loader handle in `ri->url_loader`, release the response
info and return its handle. -/
def ppb_url_loader_get_response_info (res_tbl : res_tbl_t) (loader : Int) :
    outcome (Int × res_tbl_t) :=
  match pp_resource_acquire res_tbl loader PP_RESOURCE_URL_LOADER with
  | outcome.ok (some _) =>
    let response_info := (pp_resource_allocate res_tbl PP_RESOURCE_URL_RESPONSE_INFO).1
    let tbl1 := (pp_resource_allocate res_tbl PP_RESOURCE_URL_RESPONSE_INFO).2
    match pp_resource_acquire tbl1 response_info PP_RESOURCE_URL_RESPONSE_INFO with
    | outcome.ok (some _) =>
      let tbl2 := pp_resource_release tbl1 loader
      match pp_resource_ref tbl2 loader with
      | outcome.ok tbl3 =>
        match store_url_loader tbl3 response_info loader with
        | outcome.ok tbl4 => outcome.ok (response_info, pp_resource_release tbl4 response_info)
        | outcome.fault => outcome.fault
        | outcome.out_of_fuel => outcome.out_of_fuel
      | outcome.fault => outcome.fault
      | outcome.out_of_fuel => outcome.out_of_fuel
    | outcome.ok none => outcome.fault
    | outcome.fault => outcome.fault
    | outcome.out_of_fuel => outcome.out_of_fuel
  | outcome.ok none => outcome.fault
  | outcome.fault => outcome.fault
  | outcome.out_of_fuel => outcome.out_of_fuel

/-- Conversion of the `int32_t` count to the `size_t` parameter of `fread`,
`size_t` taken as 64 bits wide. -/
def size_t_of_int (n : Int) : Nat :=
  if n < 0 then (n + 2 ^ 64).toNat else n.toNat

/-- The libc call `fseek(fp, offset, SEEK_SET)` on a stream at position
`stream_pos`: the new position; a negative offset is rejected and leaves the
position where it was (the return value is not looked at by the caller). -/
def fseek_set (stream_pos : Nat) (offset : Int) : Nat :=
  if offset < 0 then stream_pos else offset.toNat

/-- The libc call `fread(buffer, 1, count, fp)` on a stream over the byte
store `bytes` at position `stream_pos`: the bytes stored into `buffer`, as many
as the store holds from that position on, at most `count`; the return value
is their number. -/
def fread (bytes : List Nat) (stream_pos : Nat) (count : Nat) : List Nat :=
  (bytes.drop stream_pos).take count

/-- A store of a new `read_pos` through the loader pointer held in a slot. -/
def store_read_pos (res_tbl : res_tbl_t) (resource : Int) (read_pos : Int) : res_tbl_t :=
  match g_array_index res_tbl resource with
  | none => res_tbl
  | some ul => res_tbl.set resource.toNat (some { ul with read_pos := read_pos })

/-- Function `ppb_url_loader_read_response_body` of `ppb_url_loader.c`, called
while the stream `ul->fp` stands at `stream_pos`: returns `read_bytes`, the
bytes stored into `buffer` and the table. `ul->fp` reads through `ul`, a fault
when `pp_resource_acquire` returned `NULL`. -/
def ppb_url_loader_read_response_body (res_tbl : res_tbl_t) (loader : Int)
    (bytes_to_read : Int) (stream_pos : Nat) : outcome (Int × List Nat × res_tbl_t) :=
  match pp_resource_acquire res_tbl loader PP_RESOURCE_URL_LOADER with
  | outcome.ok (some ul) =>
    match ul.fp with
    | some bytes =>
      let buffer := fread bytes (fseek_set stream_pos ul.read_pos) (size_t_of_int bytes_to_read)
      let read_bytes : Int := buffer.length
      let tbl1 := store_read_pos res_tbl loader (ul.read_pos + read_bytes)
      outcome.ok (read_bytes, buffer, pp_resource_release tbl1 loader)
    | none => outcome.ok (0, [], pp_resource_release res_tbl loader)
  | outcome.ok none => outcome.fault
  | outcome.fault => outcome.fault
  | outcome.out_of_fuel => outcome.out_of_fuel

/-- Number of slots of the table that hold an object. -/
def live_slots : res_tbl_t → Nat
  | [] => 0
  | none :: t => live_slots t
  | some _ :: t => live_slots t + 1

/-- Every object of the table has a `NULL` `data` pointer and, unless its tag
is `PP_RESOURCE_UNKNOWN`, a counter of at least 1. -/
def named_counted (res_tbl : res_tbl_t) : Prop :=
  ∀ (i : Nat) (obj : pp_resource_generic_s), res_tbl[i]? = some (some obj) →
    obj.data = buf_ptr.null ∧ (obj.type ≠ PP_RESOURCE_UNKNOWN → 1 ≤ obj.ref_cnt)

/-- The slots that hold an object in the second table held an object of the
same type tag in the first, and the tables have the same length. -/
def same_tags (t1 t2 : res_tbl_t) : Prop :=
  t2.length = t1.length ∧
  ∀ (i : Nat) (obj2 : pp_resource_generic_s), t2[i]? = some (some obj2) →
    ∃ obj1 : pp_resource_generic_s, t1[i]? = some (some obj1) ∧ obj2.type = obj1.type

/-- A store a client makes through an acquired pointer into the payload
pointers of an object (as `ul->url = strdup(pair->url)` in
`ppb_url_loader_open`): each of `headers`, `body`, `url` and `data` is set to
`NULL` or to a buffer the object now owns. Nothing is stored when
`pp_resource_acquire_any` returns `NULL`. -/
def store_payload (res_tbl : res_tbl_t) (resource : Int) (headers body url data : Bool) :
    res_tbl_t :=
  match pp_resource_acquire_any res_tbl resource with
  | none => res_tbl
  | some obj =>
    res_tbl.set resource.toNat (some { obj with
      headers := headers, body := body, url := url,
      data := if data then buf_ptr.owned else buf_ptr.null })

/-- A call made by a client of the registry: one of the four state-changing
entry points, the linking call `ppb_url_loader_get_response_info`, or a store
into the payload pointers of an acquired object. -/
inductive client_call where
  | registry (c : call)
  | get_response_info (loader : Int)
  | store_payload (resource : Int) (headers body url data : Bool)
  deriving DecidableEq, Repr

/-- Table after one client call. -/
def client_step (res_tbl : res_tbl_t) : client_call → outcome res_tbl_t
  | client_call.registry c => step res_tbl c
  | client_call.get_response_info loader =>
    match ppb_url_loader_get_response_info res_tbl loader with
    | outcome.ok r => outcome.ok r.2
    | outcome.fault => outcome.fault
    | outcome.out_of_fuel => outcome.out_of_fuel
  | client_call.store_payload resource headers body url data =>
    outcome.ok (store_payload res_tbl resource headers body url data)

/-- Table after a sequence of client calls; the run stops at the first call
that does not complete. -/
def client_run (res_tbl : res_tbl_t) : List client_call → outcome res_tbl_t
  | [] => outcome.ok res_tbl
  | c :: cs =>
    match client_step res_tbl c with
    | outcome.ok tbl => client_run tbl cs
    | outcome.fault => outcome.fault
    | outcome.out_of_fuel => outcome.out_of_fuel

/-- A table the process can be in when clients link response infos and fill
payloads: the result of a completed sequence of client calls on the table of
`pp_resource_constructor`. Every `reachable` table is one of them. -/
def client_reachable (res_tbl : res_tbl_t) : Prop :=
  ∃ cs : List client_call, client_run pp_resource_constructor cs = outcome.ok res_tbl

/-- No object of the table keeps a pointer to a freed `data` buffer, and every
object whose tag is not `PP_RESOURCE_UNKNOWN` has a counter of at least 1. -/
def well_counted (res_tbl : res_tbl_t) : Prop :=
  ∀ (i : Nat) (obj : pp_resource_generic_s), res_tbl[i]? = some (some obj) →
    obj.data ≠ buf_ptr.dangling ∧ (obj.type ≠ PP_RESOURCE_UNKNOWN → 1 ≤ obj.ref_cnt)

/-! ## Basic facts about the range test and the table -/

theorem out_of_range_eq_false {res_tbl : res_tbl_t} {resource : Int} :
    out_of_range res_tbl resource = false ↔
      1 ≤ resource ∧ resource < (res_tbl.length : Int) := by
  simp [out_of_range]

theorem out_of_range_eq_true {res_tbl : res_tbl_t} {resource : Int} :
    out_of_range res_tbl resource = true ↔
      resource < 1 ∨ (res_tbl.length : Int) ≤ resource := by
  simp [out_of_range]

theorem toNat_lt_length {res_tbl : res_tbl_t} {resource : Int}
    (h : out_of_range res_tbl resource = false) : resource.toNat < res_tbl.length := by
  have := out_of_range_eq_false.1 h
  omega

theorem out_of_range_congr {t1 t2 : res_tbl_t} (h : t1.length = t2.length) (resource : Int) :
    out_of_range t1 resource = out_of_range t2 resource := by
  simp [out_of_range, h]

theorem g_array_index_eq_getElem? (res_tbl : res_tbl_t) (resource : Int) :
    g_array_index res_tbl resource = (res_tbl[resource.toNat]?).getD none := by
  simp [g_array_index, List.getD_eq_getElem?_getD]

theorem g_array_index_set_self {res_tbl : res_tbl_t} {resource : Int}
    (h : out_of_range res_tbl resource = false) (v : Option pp_resource_generic_s) :
    g_array_index (res_tbl.set resource.toNat v) resource = v := by
  have := toNat_lt_length h
  simp [g_array_index_eq_getElem?, List.getElem?_set, this]

theorem length_expunge (res_tbl : res_tbl_t) (resource : Int) :
    (pp_resource_expunge res_tbl resource).length = res_tbl.length := by
  unfold pp_resource_expunge
  split <;> simp

theorem expunge_in_range {res_tbl : res_tbl_t} {resource : Int}
    (h : out_of_range res_tbl resource = false) :
    pp_resource_expunge res_tbl resource = res_tbl.set resource.toNat none := by
  simp [pp_resource_expunge, h]

theorem expunge_set_self {res_tbl : res_tbl_t} {resource : Int}
    (h : out_of_range res_tbl resource = false) (v : Option pp_resource_generic_s) :
    pp_resource_expunge (res_tbl.set resource.toNat v) resource
      = res_tbl.set resource.toNat none := by
  have h2 : out_of_range (res_tbl.set resource.toNat v) resource = false := by
    rw [out_of_range_congr (List.length_set _ _ _)]; exact h
  rw [expunge_in_range h2, List.set_set]

theorem length_ref {res_tbl tbl : res_tbl_t} {resource : Int}
    (h : pp_resource_ref res_tbl resource = outcome.ok tbl) : tbl.length = res_tbl.length := by
  unfold pp_resource_ref at h
  split at h
  · cases h; rfl
  · split at h
    · cases h
    · cases h; simp

theorem length_unref_fuel (fuel : Nat) :
    ∀ (res_tbl tbl : res_tbl_t) (resource : Int),
      pp_resource_unref_fuel fuel res_tbl resource = outcome.ok tbl →
      tbl.length = res_tbl.length := by
  induction fuel with
  | zero => intro res_tbl tbl resource h; simp [pp_resource_unref_fuel] at h
  | succ n ih =>
    intro res_tbl tbl resource h
    unfold pp_resource_unref_fuel at h
    split at h
    · cases h; rfl
    · split at h
      · cases h
      · split at h
        · split at h
          · split at h
            · have := ih _ _ _ h
              simpa [length_expunge] using this
            · cases h; simp [length_expunge]
          · cases h; simp
        · cases h
        · cases h

theorem length_unref {res_tbl tbl : res_tbl_t} {resource : Int}
    (h : pp_resource_unref res_tbl resource = outcome.ok tbl) : tbl.length = res_tbl.length :=
  length_unref_fuel _ _ _ _ h

theorem length_step {res_tbl tbl : res_tbl_t} {c : call}
    (h : step res_tbl c = outcome.ok tbl) : res_tbl.length ≤ tbl.length := by
  cases c with
  | allocate type => simp [step, pp_resource_allocate] at h; subst h; simp
  | ref resource => exact le_of_eq (length_ref h).symm
  | unref resource => exact le_of_eq (length_unref h).symm
  | expunge resource => simp [step] at h; subst h; simp [length_expunge]

theorem length_run (cs : List call) :
    ∀ (res_tbl tbl : res_tbl_t), run res_tbl cs = outcome.ok tbl →
      res_tbl.length ≤ tbl.length := by
  induction cs with
  | nil => intro res_tbl tbl h; simp [run] at h; subst h; exact le_refl _
  | cons c cs ih =>
    intro res_tbl tbl h
    unfold run at h
    split at h
    · next t ht => exact le_trans (length_step ht) (ih _ _ h)
    · cases h
    · cases h

theorem reachable_length_pos {res_tbl : res_tbl_t} (h : reachable res_tbl) :
    1 ≤ res_tbl.length := by
  obtain ⟨cs, hcs⟩ := h
  have := length_run cs _ _ hcs
  simpa [pp_resource_constructor] using this

theorem alloc_obj_type (type : pp_resource_type_e) : (alloc_obj type).type = type := by
  cases type <;> rfl

theorem out_of_range_allocate {res_tbl : res_tbl_t} (h : 1 ≤ res_tbl.length)
    (type : pp_resource_type_e) :
    out_of_range (pp_resource_allocate res_tbl type).2 (pp_resource_allocate res_tbl type).1
      = false := by
  rw [out_of_range_eq_false]
  simp [pp_resource_allocate]
  omega

theorem g_array_index_allocate (res_tbl : res_tbl_t) (type : pp_resource_type_e) :
    g_array_index (pp_resource_allocate res_tbl type).2 (pp_resource_allocate res_tbl type).1
      = some (alloc_obj type) := by
  simp [g_array_index_eq_getElem?, pp_resource_allocate]

theorem alloc_obj_ref_cnt {type : pp_resource_type_e} (h : type ≠ PP_RESOURCE_UNKNOWN) :
    (alloc_obj type).ref_cnt = 1 := by
  cases type <;> first | rfl | exact absurd rfl h

theorem loader_after_unref_ref_cnt (l : pp_resource_generic_s) :
    (loader_after_unref l).ref_cnt = l.ref_cnt - 1 := by
  unfold loader_after_unref
  split <;> rfl

theorem unref_switch_loader {l : pp_resource_generic_s} (ht : l.type = PP_RESOURCE_URL_LOADER) :
    unref_switch { l with ref_cnt := l.ref_cnt - 1 } = outcome.ok (loader_after_unref l, 0) := by
  unfold unref_switch loader_after_unref
  simp only [ht]
  split <;> rfl

theorem unref_switch_response_info {r : pp_resource_generic_s}
    (ht : r.type = PP_RESOURCE_URL_RESPONSE_INFO) :
    unref_switch { r with ref_cnt := r.ref_cnt - 1 }
      = outcome.ok ({ r with ref_cnt := r.ref_cnt - 1 }, r.url_loader) := by
  unfold unref_switch
  simp only [ht]

/-- One `pp_resource_unref` step on a live URL loader, for any positive budget. -/
theorem unref_fuel_loader (fuel : Nat) {res_tbl : res_tbl_t} {resource : Int}
    {l : pp_resource_generic_s} (hr : out_of_range res_tbl resource = false)
    (hl : g_array_index res_tbl resource = some l) (ht : l.type = PP_RESOURCE_URL_LOADER) :
    pp_resource_unref_fuel (fuel + 1) res_tbl resource =
      outcome.ok (if l.ref_cnt = 1 then res_tbl.set resource.toNat none
        else res_tbl.set resource.toNat (some (loader_after_unref l))) := by
  unfold pp_resource_unref_fuel
  simp only [hr, hl, unref_switch_loader ht, loader_after_unref_ref_cnt, Bool.false_eq_true,
    if_false]
  by_cases hc : l.ref_cnt = 1
  · have h0 : l.ref_cnt - 1 = 0 := by omega
    simp [hc, expunge_set_self hr]
  · have h0 : ¬ (l.ref_cnt - 1 = 0) := by omega
    simp [hc, h0]

/-! ## Counting references on one handle -/

theorem set_same_of_index {res_tbl : res_tbl_t} {resource : Int}
    (hr : out_of_range res_tbl resource = false) {obj : pp_resource_generic_s}
    (hg : g_array_index res_tbl resource = some obj) :
    res_tbl.set resource.toNat (some obj) = res_tbl := by
  have hlt := toNat_lt_length hr
  rw [g_array_index_eq_getElem?, List.getElem?_eq_getElem hlt] at hg
  have hg2 : res_tbl[resource.toNat] = some obj := by simpa using hg
  apply List.ext_getElem?
  intro i
  rw [List.getElem?_set]
  split
  · next h => subst h; simp [hlt, hg2]
  · rfl

theorem ref_live {res_tbl : res_tbl_t} {resource : Int} {obj : pp_resource_generic_s}
    (hr : out_of_range res_tbl resource = false)
    (hg : g_array_index res_tbl resource = some obj) :
    pp_resource_ref res_tbl resource
      = outcome.ok (res_tbl.set resource.toNat (some { obj with ref_cnt := obj.ref_cnt + 1 })) := by
  simp [pp_resource_ref, hr, hg]

theorem ref_n_live (n : Nat) : ∀ {res_tbl : res_tbl_t} {resource : Int}
    {obj : pp_resource_generic_s}, out_of_range res_tbl resource = false →
    g_array_index res_tbl resource = some obj →
    ref_n res_tbl resource n
      = outcome.ok (res_tbl.set resource.toNat (some { obj with ref_cnt := obj.ref_cnt + n })) := by
  induction n with
  | zero =>
    intro res_tbl resource obj hr hg
    simp [ref_n, set_same_of_index hr hg]
  | succ n ih =>
    intro res_tbl resource obj hr hg
    have hr2 : out_of_range (res_tbl.set resource.toNat
        (some { obj with ref_cnt := obj.ref_cnt + 1 })) resource = false := by
      rw [out_of_range_congr (List.length_set _ _ _)]; exact hr
    rw [ref_n, ref_live hr hg]
    simp only
    rw [ih hr2 (g_array_index_set_self hr _), List.set_set]
    have e : obj.ref_cnt + 1 + (n : Int) = obj.ref_cnt + ((n + 1 : Nat) : Int) := by
      push_cast; ring
    simp only [e]

theorem unref_switch_pos {p : pp_resource_generic_s} (h : 0 < p.ref_cnt) :
    ∃ parent, unref_switch p = outcome.ok (p, parent) := by
  have h2 : ¬ p.ref_cnt ≤ 0 := by omega
  unfold unref_switch
  split <;> simp [h2]

theorem unref_keep {res_tbl : res_tbl_t} {resource : Int} {obj : pp_resource_generic_s}
    (hr : out_of_range res_tbl resource = false)
    (hg : g_array_index res_tbl resource = some obj) (hc : 1 < obj.ref_cnt) :
    pp_resource_unref res_tbl resource
      = outcome.ok (res_tbl.set resource.toNat (some { obj with ref_cnt := obj.ref_cnt - 1 })) := by
  obtain ⟨parent, hsw⟩ :=
    unref_switch_pos (p := { obj with ref_cnt := obj.ref_cnt - 1 }) (by simp; omega)
  have h0 : ¬ (obj.ref_cnt - 1 = 0) := by omega
  unfold pp_resource_unref
  rw [pp_resource_unref_fuel]
  simp [hr, hg, hsw, h0]

theorem unref_n_keep (n : Nat) : ∀ {res_tbl : res_tbl_t} {resource : Int}
    {obj : pp_resource_generic_s}, out_of_range res_tbl resource = false →
    g_array_index res_tbl resource = some obj → (n : Int) < obj.ref_cnt →
    unref_n res_tbl resource n
      = outcome.ok (res_tbl.set resource.toNat (some { obj with ref_cnt := obj.ref_cnt - n })) := by
  induction n with
  | zero =>
    intro res_tbl resource obj hr hg _
    simp [unref_n, set_same_of_index hr hg]
  | succ n ih =>
    intro res_tbl resource obj hr hg hc
    have hr2 : out_of_range (res_tbl.set resource.toNat
        (some { obj with ref_cnt := obj.ref_cnt - 1 })) resource = false := by
      rw [out_of_range_congr (List.length_set _ _ _)]; exact hr
    rw [unref_n, unref_keep hr hg (by omega)]
    simp only
    rw [ih hr2 (g_array_index_set_self hr _) (by simp; omega), List.set_set]
    have e : obj.ref_cnt - 1 - (n : Int) = obj.ref_cnt - ((n + 1 : Nat) : Int) := by
      push_cast; ring
    simp only [e]

theorem unref_last_alloc {res_tbl : res_tbl_t} {resource : Int} {type : pp_resource_type_e}
    (hr : out_of_range res_tbl resource = false)
    (hg : g_array_index res_tbl resource = some { alloc_obj type with ref_cnt := 1 }) :
    pp_resource_unref res_tbl resource = outcome.ok (res_tbl.set resource.toNat none) := by
  unfold pp_resource_unref
  rw [pp_resource_unref_fuel]
  cases type <;>
    simp [hr, hg, unref_switch, alloc_obj, calloc, expunge_set_self hr]

/-- Counting on a freshly allocated object of a kind other than
`PP_RESOURCE_UNKNOWN`: `n` calls of `pp_resource_ref` and then `n + 1` calls of
`pp_resource_unref` complete; after each of the first `n` unref calls the slot
still holds the object, and the last one clears the slot. -/
theorem ref_unref_named_kind (res_tbl : res_tbl_t) (type : pp_resource_type_e) (n : Nat)
    (hpos : 1 ≤ res_tbl.length) (hty : type ≠ PP_RESOURCE_UNKNOWN) :
    ∃ tbl, ref_n (pp_resource_allocate res_tbl type).2 (pp_resource_allocate res_tbl type).1 n
        = outcome.ok tbl ∧
      (∀ k, k ≤ n → ∃ tbl2 obj,
        unref_n tbl (pp_resource_allocate res_tbl type).1 k = outcome.ok tbl2 ∧
        g_array_index tbl2 (pp_resource_allocate res_tbl type).1 = some obj) ∧
      unref_n tbl (pp_resource_allocate res_tbl type).1 (n + 1)
        = outcome.ok (res_tbl ++ [none]) := by
  have hr := out_of_range_allocate hpos type
  have hg := g_array_index_allocate res_tbl type
  have hrs : ∀ v, out_of_range ((pp_resource_allocate res_tbl type).2.set
      (pp_resource_allocate res_tbl type).1.toNat v) (pp_resource_allocate res_tbl type).1
        = false := by
    intro v
    rw [out_of_range_congr (List.length_set _ _ _)]; exact hr
  have hkeep : ∀ k : Nat, k ≤ n →
      unref_n ((pp_resource_allocate res_tbl type).2.set (pp_resource_allocate res_tbl type).1.toNat
          (some { alloc_obj type with ref_cnt := (alloc_obj type).ref_cnt + n }))
        (pp_resource_allocate res_tbl type).1 k
      = outcome.ok ((pp_resource_allocate res_tbl type).2.set
          (pp_resource_allocate res_tbl type).1.toNat
          (some { alloc_obj type with ref_cnt := (alloc_obj type).ref_cnt + n - k })) := by
    intro k hk
    rw [unref_n_keep k (hrs _) (g_array_index_set_self hr _)
      (by simp [alloc_obj_ref_cnt hty]; omega), List.set_set]
  refine ⟨_, ref_n_live n hr hg, ?_, ?_⟩
  · intro k hk
    exact ⟨_, _, hkeep k hk, g_array_index_set_self hr _⟩
  · have hsplit : ∀ (t : res_tbl_t) (r : Int) (m : Nat) (t2 : res_tbl_t),
        unref_n t r m = outcome.ok t2 →
        unref_n t r (m + 1) = pp_resource_unref t2 r := by
      intro t r m
      induction m generalizing t with
      | zero =>
        intro t2 h
        simp [unref_n] at h
        subst h
        simp only [unref_n]
        cases pp_resource_unref t r <;> rfl
      | succ m ih =>
        intro t2 h
        rw [unref_n] at h
        rw [unref_n]
        cases hu : pp_resource_unref t r with
        | ok t1 => rw [hu] at h; exact ih t1 t2 h
        | fault => rw [hu] at h; cases h
        | out_of_fuel => rw [hu] at h; cases h
    rw [hsplit _ _ n _ (hkeep n (le_refl n))]
    have hone : (alloc_obj type).ref_cnt + (n : Int) - (n : Int) = 1 := by
      rw [alloc_obj_ref_cnt hty]; omega
    rw [hone, unref_last_alloc (hrs _) (g_array_index_set_self hr _), List.set_set]
    simp [pp_resource_allocate]

/-! ## Type tags and counters across `pp_resource_unref` -/

theorem unref_switch_type {p q : pp_resource_generic_s} {parent : Int}
    (h : unref_switch p = outcome.ok (q, parent)) :
    q.type = p.type ∧ q.ref_cnt = p.ref_cnt := by
  obtain ⟨ty, rc, ul, hd, bd, u, d, fp, rp⟩ := p
  cases ty <;> simp only [unref_switch] at h <;> (try split at h) <;> (try split at h) <;>
    first
      | (cases h; exact ⟨rfl, rfl⟩)
      | cases h

theorem same_tags_refl (t : res_tbl_t) : same_tags t t :=
  ⟨rfl, fun _ obj2 h => ⟨obj2, h, rfl⟩⟩

theorem same_tags_trans {t1 t2 t3 : res_tbl_t} (h12 : same_tags t1 t2) (h23 : same_tags t2 t3) :
    same_tags t1 t3 := by
  refine ⟨h23.1.trans h12.1, ?_⟩
  intro i obj3 h3
  obtain ⟨obj2, h2, e2⟩ := h23.2 i obj3 h3
  obtain ⟨obj1, h1, e1⟩ := h12.2 i obj2 h2
  exact ⟨obj1, h1, e2.trans e1⟩

theorem same_tags_set_none (t : res_tbl_t) (k : Nat) : same_tags t (t.set k none) := by
  refine ⟨List.length_set _ _ _, ?_⟩
  intro i obj2 h
  rw [List.getElem?_set] at h
  split at h
  · split at h <;> cases h
  · exact ⟨obj2, h, rfl⟩

theorem same_tags_set_some {t : res_tbl_t} {k : Nat} {obj q : pp_resource_generic_s}
    (hk : t[k]? = some (some obj)) (hq : q.type = obj.type) :
    same_tags t (t.set k (some q)) := by
  refine ⟨List.length_set _ _ _, ?_⟩
  intro i obj2 h
  rw [List.getElem?_set] at h
  split at h
  · next hki =>
    subst hki
    split at h
    · have : q = obj2 := by simpa using h
      subst this
      exact ⟨obj, hk, hq⟩
    · cases h
  · exact ⟨obj2, h, rfl⟩

theorem getElem?_of_g_array_index {res_tbl : res_tbl_t} {resource : Int}
    {obj : pp_resource_generic_s} (hr : out_of_range res_tbl resource = false)
    (hg : g_array_index res_tbl resource = some obj) :
    res_tbl[resource.toNat]? = some (some obj) := by
  have hlt := toNat_lt_length hr
  rw [g_array_index_eq_getElem?, List.getElem?_eq_getElem hlt] at hg
  rw [List.getElem?_eq_getElem hlt]
  simpa using hg

theorem ref_same_tags {res_tbl tbl : res_tbl_t} {resource : Int}
    (h : pp_resource_ref res_tbl resource = outcome.ok tbl) : same_tags res_tbl tbl := by
  unfold pp_resource_ref at h
  split at h
  · cases h; exact same_tags_refl _
  · next hr =>
    have hr2 : out_of_range res_tbl resource = false := by simpa using hr
    split at h
    · cases h
    · next ptr hg =>
      cases h
      exact same_tags_set_some (getElem?_of_g_array_index hr2 hg) rfl

theorem unref_fuel_same_tags (fuel : Nat) :
    ∀ (res_tbl tbl : res_tbl_t) (resource : Int),
      pp_resource_unref_fuel fuel res_tbl resource = outcome.ok tbl → same_tags res_tbl tbl := by
  induction fuel with
  | zero => intro res_tbl tbl resource h; simp [pp_resource_unref_fuel] at h
  | succ n ih =>
    intro res_tbl tbl resource h
    unfold pp_resource_unref_fuel at h
    split at h
    · cases h; exact same_tags_refl _
    · next hr =>
      have hr2 : out_of_range res_tbl resource = false := by simpa using hr
      split at h
      · cases h
      · next obj hg =>
        have hslot := getElem?_of_g_array_index hr2 hg
        split at h
        · next ptr parent hsw =>
          have hty : ptr.type = obj.type := (unref_switch_type hsw).1
          have h1 : same_tags res_tbl (res_tbl.set resource.toNat (some ptr)) :=
            same_tags_set_some hslot hty
          split at h
          · simp only [expunge_set_self hr2] at h
            have h2 : same_tags res_tbl (res_tbl.set resource.toNat none) :=
              same_tags_set_none _ _
            split at h
            · exact same_tags_trans h2 (ih _ _ _ h)
            · cases h; exact h2
          · cases h; exact h1
        · cases h
        · cases h

/-! ## The budget of `pp_resource_unref` -/

theorem live_slots_le_length (t : res_tbl_t) : live_slots t ≤ t.length := by
  induction t with
  | nil => simp [live_slots]
  | cons a t ih =>
    cases a with
    | none => simp only [live_slots, List.length_cons]; omega
    | some o => simp only [live_slots, List.length_cons]; omega

theorem live_slots_set_none : ∀ (t : res_tbl_t) (k : Nat) (obj : pp_resource_generic_s),
    t[k]? = some (some obj) → live_slots (t.set k none) + 1 = live_slots t := by
  intro t
  induction t with
  | nil => intro k obj h; simp at h
  | cons a t ih =>
    intro k obj h
    cases k with
    | zero =>
      simp only [List.getElem?_cons_zero, Option.some.injEq] at h
      subst h
      simp [live_slots]
    | succ k =>
      simp only [List.getElem?_cons_succ] at h
      have := ih k obj h
      cases a with
      | none => simpa [live_slots] using this
      | some o => simp only [List.set_cons_succ, live_slots]; omega

/-- One level of `pp_resource_unref_fuel`, with the nested call left open. -/
theorem unref_fuel_unfold (fuel : Nat) (res_tbl : res_tbl_t) (resource : Int) :
    pp_resource_unref_fuel (fuel + 1) res_tbl resource =
      if out_of_range res_tbl resource then outcome.ok res_tbl
      else match g_array_index res_tbl resource with
        | none => outcome.fault
        | some obj =>
          match unref_switch { obj with ref_cnt := obj.ref_cnt - 1 } with
          | outcome.ok (ptr, parent) =>
            if ptr.ref_cnt = 0 then
              if parent ≠ 0 then
                pp_resource_unref_fuel fuel
                  (pp_resource_expunge (res_tbl.set resource.toNat (some ptr)) resource) parent
              else outcome.ok
                (pp_resource_expunge (res_tbl.set resource.toNat (some ptr)) resource)
            else outcome.ok (res_tbl.set resource.toNat (some ptr))
          | outcome.fault => outcome.fault
          | outcome.out_of_fuel => outcome.out_of_fuel := by
  rw [pp_resource_unref_fuel]

theorem unref_switch_ne_out_of_fuel (p : pp_resource_generic_s) :
    unref_switch p ≠ outcome.out_of_fuel := by
  obtain ⟨ty, rc, ul, hd, bd, u, d, fp, rp⟩ := p
  cases ty <;> simp only [unref_switch] <;> (try split) <;> (try split) <;> simp

/-- With a budget above the number of slots that hold an object,
`pp_resource_unref_fuel` comes to an end. -/
theorem unref_fuel_terminates (fuel : Nat) :
    ∀ (res_tbl : res_tbl_t) (resource : Int), live_slots res_tbl < fuel →
      pp_resource_unref_fuel fuel res_tbl resource ≠ outcome.out_of_fuel := by
  induction fuel with
  | zero => intro res_tbl resource h; omega
  | succ n ih =>
    intro res_tbl resource hlt
    rw [unref_fuel_unfold]
    by_cases hr : out_of_range res_tbl resource = true
    · simp [hr]
    · have hr2 : out_of_range res_tbl resource = false := by simpa using hr
      simp only [hr2, Bool.false_eq_true, if_false]
      cases hg : g_array_index res_tbl resource with
      | none => simp
      | some obj =>
        have hslot := getElem?_of_g_array_index hr2 hg
        simp only
        cases hsw : unref_switch { obj with ref_cnt := obj.ref_cnt - 1 } with
        | ok v =>
          obtain ⟨ptr, parent⟩ := v
          simp only [expunge_set_self hr2]
          by_cases h0 : ptr.ref_cnt = 0
          · by_cases hp : parent = 0
            · simp [h0, hp]
            · simp only [h0, if_true, ne_eq, hp, not_false_eq_true]
              apply ih
              have := live_slots_set_none res_tbl resource.toNat obj hslot
              omega
          · simp [h0]
        | fault => simp
        | out_of_fuel => exact absurd hsw (unref_switch_ne_out_of_fuel _)

/-- A larger budget does not change a result that came to an end. -/
theorem unref_fuel_succ (fuel : Nat) :
    ∀ (res_tbl : res_tbl_t) (resource : Int),
      pp_resource_unref_fuel fuel res_tbl resource ≠ outcome.out_of_fuel →
      pp_resource_unref_fuel (fuel + 1) res_tbl resource
        = pp_resource_unref_fuel fuel res_tbl resource := by
  induction fuel with
  | zero => intro res_tbl resource h; exact absurd rfl h
  | succ n ih =>
    intro res_tbl resource hne
    rw [unref_fuel_unfold] at hne
    rw [unref_fuel_unfold (n + 1), unref_fuel_unfold n]
    by_cases hr : out_of_range res_tbl resource = true
    · simp [hr]
    · have hr2 : out_of_range res_tbl resource = false := by simpa using hr
      simp only [hr2, Bool.false_eq_true, if_false] at hne ⊢
      cases hg : g_array_index res_tbl resource with
      | none => rfl
      | some obj =>
        rw [hg] at hne
        simp only at hne ⊢
        cases hsw : unref_switch { obj with ref_cnt := obj.ref_cnt - 1 } with
        | ok v =>
          obtain ⟨ptr, parent⟩ := v
          rw [hsw] at hne
          simp only at hne ⊢
          by_cases h0 : ptr.ref_cnt = 0
          · by_cases hp : parent = 0
            · simp [h0, hp]
            · simp only [h0, if_true, ne_eq, hp, not_false_eq_true] at hne ⊢
              exact ih _ _ hne
          · simp [h0]
        | fault => rfl
        | out_of_fuel => rfl

theorem unref_fuel_add (k : Nat) : ∀ (fuel : Nat) (res_tbl : res_tbl_t) (resource : Int),
    pp_resource_unref_fuel fuel res_tbl resource ≠ outcome.out_of_fuel →
    pp_resource_unref_fuel (fuel + k) res_tbl resource
      = pp_resource_unref_fuel fuel res_tbl resource := by
  induction k with
  | zero => intro fuel res_tbl resource _; rfl
  | succ k ih =>
    intro fuel res_tbl resource hne
    have h1 := ih fuel res_tbl resource hne
    have h2 := unref_fuel_succ (fuel + k) res_tbl resource (by rw [h1]; exact hne)
    rw [← Nat.add_assoc, h2, h1]

/-! ## Counters of the named kinds in reachable tables -/

theorem unref_switch_data {p q : pp_resource_generic_s} {parent : Int}
    (h : unref_switch p = outcome.ok (q, parent)) (hd : p.data = buf_ptr.null) :
    q.data = buf_ptr.null := by
  obtain ⟨ty, rc, ul, hdr, bd, u, d, fp, rp⟩ := p
  simp only at hd
  subst hd
  cases ty <;> simp only [unref_switch] at h <;> (try split at h) <;> (cases h; rfl)

theorem named_counted_set {t : res_tbl_t} (ht : named_counted t) (k : Nat)
    (v : Option pp_resource_generic_s)
    (hv : ∀ q, v = some q →
      q.data = buf_ptr.null ∧ (q.type ≠ PP_RESOURCE_UNKNOWN → 1 ≤ q.ref_cnt)) :
    named_counted (t.set k v) := by
  intro i obj h
  rw [List.getElem?_set] at h
  split at h
  · split at h
    · exact hv obj (by simpa using h)
    · cases h
  · exact ht i obj h

theorem named_counted_allocate {t : res_tbl_t} (ht : named_counted t)
    (type : pp_resource_type_e) : named_counted (pp_resource_allocate t type).2 := by
  intro i obj h
  simp only [pp_resource_allocate] at h
  by_cases hi : i < t.length
  · rw [List.getElem?_append_left hi] at h
    exact ht i obj h
  · rw [List.getElem?_append_right (Nat.le_of_not_lt hi)] at h
    have h2 : i - t.length = 0 := by
      by_contra hne
      have : ([some (alloc_obj type)] : res_tbl_t)[i - t.length]? = none :=
        List.getElem?_eq_none (by simp; omega)
      rw [this] at h
      cases h
    rw [h2] at h
    have : alloc_obj type = obj := by simpa using h
    subst this
    cases type <;> simp [alloc_obj, calloc]

theorem named_counted_ref {t tbl : res_tbl_t} {resource : Int} (ht : named_counted t)
    (h : pp_resource_ref t resource = outcome.ok tbl) : named_counted tbl := by
  unfold pp_resource_ref at h
  split at h
  · cases h; exact ht
  · next hr =>
    have hr2 : out_of_range t resource = false := by simpa using hr
    split at h
    · cases h
    · next ptr hg =>
      cases h
      have hp := ht _ _ (getElem?_of_g_array_index hr2 hg)
      apply named_counted_set ht
      intro q hq
      have : q = { ptr with ref_cnt := ptr.ref_cnt + 1 } := by simpa using hq.symm
      subst this
      refine ⟨hp.1, fun hne => ?_⟩
      have := hp.2 hne
      simp only
      omega

theorem named_counted_unref_fuel (fuel : Nat) :
    ∀ (t tbl : res_tbl_t) (resource : Int), named_counted t →
      pp_resource_unref_fuel fuel t resource = outcome.ok tbl → named_counted tbl := by
  induction fuel with
  | zero => intro t tbl resource _ h; simp [pp_resource_unref_fuel] at h
  | succ n ih =>
    intro t tbl resource ht h
    rw [unref_fuel_unfold] at h
    by_cases hr : out_of_range t resource = true
    · simp only [hr, if_true] at h
      cases h; exact ht
    · have hr2 : out_of_range t resource = false := by simpa using hr
      simp only [hr2, Bool.false_eq_true, if_false] at h
      cases hg : g_array_index t resource with
      | none => rw [hg] at h; cases h
      | some obj =>
        rw [hg] at h
        simp only at h
        have hobj := ht _ _ (getElem?_of_g_array_index hr2 hg)
        cases hsw : unref_switch { obj with ref_cnt := obj.ref_cnt - 1 } with
        | ok v =>
          obtain ⟨ptr, parent⟩ := v
          rw [hsw] at h
          simp only [expunge_set_self hr2] at h
          have hty := unref_switch_type hsw
          have hdata := unref_switch_data hsw hobj.1
          have hnone : named_counted (t.set resource.toNat none) :=
            named_counted_set ht _ _ (fun q hq => by cases hq)
          by_cases h0 : ptr.ref_cnt = 0
          · by_cases hp : parent = 0
            · simp only [h0, if_true, ne_eq, hp, not_true_eq_false, if_false] at h
              cases h; exact hnone
            · simp only [h0, if_true, ne_eq, hp, not_false_eq_true] at h
              exact ih _ _ _ hnone h
          · simp only [h0, if_false] at h
            cases h
            apply named_counted_set ht
            intro q hq
            have : q = ptr := by simpa using hq.symm
            subst this
            refine ⟨hdata, fun hne => ?_⟩
            have h1 := hobj.2 (by rw [← hty.1]; exact hne)
            have h2 : q.ref_cnt = obj.ref_cnt - 1 := hty.2
            omega
        | fault => rw [hsw] at h; cases h
        | out_of_fuel => rw [hsw] at h; cases h

theorem named_counted_run (cs : List call) :
    ∀ (t tbl : res_tbl_t), named_counted t → run t cs = outcome.ok tbl → named_counted tbl := by
  induction cs with
  | nil => intro t tbl ht h; simp [run] at h; subst h; exact ht
  | cons c cs ih =>
    intro t tbl ht h
    unfold run at h
    split at h
    · next t1 hstep =>
      refine ih _ _ ?_ h
      cases c with
      | allocate type =>
        simp only [step] at hstep
        cases hstep
        exact named_counted_allocate ht type
      | ref resource => exact named_counted_ref ht hstep
      | unref resource => exact named_counted_unref_fuel _ _ _ _ ht hstep
      | expunge resource =>
        simp only [step] at hstep
        cases hstep
        unfold pp_resource_expunge
        split
        · exact ht
        · exact named_counted_set ht _ _ (fun q hq => by cases hq)
    · cases h
    · cases h

theorem named_counted_of_reachable {t : res_tbl_t} (h : reachable t) : named_counted t := by
  obtain ⟨cs, hcs⟩ := h
  refine named_counted_run cs _ _ ?_ hcs
  intro i obj hi
  cases i with
  | zero => simp [pp_resource_constructor] at hi
  | succ i => simp [pp_resource_constructor] at hi

/-! ## The parent cascade -/

/-- The cascade of `pp_resource_unref` from a live URL response info `R` to the
live URL loader `L` named by its `url_loader` field: with counter 1 on `R` the
call is `pp_resource_unref L` on the table with `R` expunged; with another
counter only the counter of `R` changes. -/
theorem unref_cascade_core (res_tbl : res_tbl_t) (R L : Int) (r l : pp_resource_generic_s)
    (hR : 1 ≤ R ∧ R < (res_tbl.length : Int)) (hr : res_tbl[R.toNat]? = some (some r))
    (hrt : r.type = PP_RESOURCE_URL_RESPONSE_INFO) (hp : r.url_loader = L)
    (hL : 1 ≤ L ∧ L < (res_tbl.length : Int)) (hl : res_tbl[L.toNat]? = some (some l))
    (hlt : l.type = PP_RESOURCE_URL_LOADER) :
    (r.ref_cnt = 1 →
      pp_resource_unref res_tbl R = pp_resource_unref (pp_resource_expunge res_tbl R) L ∧
      ∃ tbl, pp_resource_unref res_tbl R = outcome.ok tbl ∧
        tbl[R.toNat]? = some none ∧
        (l.ref_cnt = 1 → tbl[L.toNat]? = some none) ∧
        (l.ref_cnt ≠ 1 → ∃ l2, tbl[L.toNat]? = some (some l2) ∧
          l2.ref_cnt = l.ref_cnt - 1 ∧ l2.type = PP_RESOURCE_URL_LOADER) ∧
        ∀ i, i ≠ R.toNat → i ≠ L.toNat → tbl[i]? = res_tbl[i]?) ∧
    (r.ref_cnt ≠ 1 →
      pp_resource_unref res_tbl R
        = outcome.ok (res_tbl.set R.toNat (some { r with ref_cnt := r.ref_cnt - 1 })) ∧
      (res_tbl.set R.toNat (some { r with ref_cnt := r.ref_cnt - 1 }))[L.toNat]?
        = some (some l)) := by
  have hRr : out_of_range res_tbl R = false := out_of_range_eq_false.2 hR
  have hLr : out_of_range res_tbl L = false := out_of_range_eq_false.2 hL
  have hRlt := toNat_lt_length hRr
  have hLlt := toNat_lt_length hLr
  have hgr : g_array_index res_tbl R = some r := by
    rw [g_array_index_eq_getElem?, hr]; rfl
  have hne : R.toNat ≠ L.toNat := by
    intro heq
    rw [heq, hl] at hr
    have : l = r := by simpa using hr
    rw [this, hrt] at hlt
    cases hlt
  have hLpos : L ≠ 0 := by omega
  -- the table seen by the nested call
  have hexp : pp_resource_expunge res_tbl R = res_tbl.set R.toNat none := expunge_in_range hRr
  have hLr2 : out_of_range (res_tbl.set R.toNat none) L = false := by
    rw [out_of_range_congr (List.length_set _ _ _)]; exact hLr
  have hgl2 : g_array_index (res_tbl.set R.toNat none) L = some l := by
    rw [g_array_index_eq_getElem?, List.getElem?_set_ne hne, hl]; rfl
  constructor
  · intro hc
    have hmain : pp_resource_unref res_tbl R
        = pp_resource_unref_fuel res_tbl.length (res_tbl.set R.toNat none) L := by
      unfold pp_resource_unref
      rw [pp_resource_unref_fuel]
      simp only [hRr, hgr, unref_switch_response_info hrt, Bool.false_eq_true, if_false]
      have h0 : r.ref_cnt - 1 = 0 := by omega
      simp [h0, hp, hLpos, expunge_set_self hRr]
    obtain ⟨n, hn⟩ : ∃ n, res_tbl.length = n + 1 := ⟨res_tbl.length - 1, by omega⟩
    have hinner := unref_fuel_loader n hLr2 hgl2 hlt
    have houter := unref_fuel_loader (res_tbl.length) hLr2 hgl2 hlt
    refine ⟨?_, ?_⟩
    · rw [hmain, hexp, hn, hinner]
      unfold pp_resource_unref
      rw [List.length_set, hn, ← hn, houter]
    · rw [hmain, hn, hinner]
      refine ⟨_, rfl, ?_, ?_, ?_, ?_⟩
      · split <;> simp [List.getElem?_set, hne.symm, hRlt]
      · intro h1
        simp [h1, List.getElem?_set, hLlt]
      · intro h1
        refine ⟨loader_after_unref l, ?_, loader_after_unref_ref_cnt l, ?_⟩
        · simp [h1, List.getElem?_set, hLlt]
        · unfold loader_after_unref
          split <;> exact hlt
      · intro i hiR hiL
        split <;> simp [List.getElem?_set, Ne.symm hiR, Ne.symm hiL]
  · intro hc
    constructor
    · unfold pp_resource_unref
      rw [pp_resource_unref_fuel]
      simp only [hRr, hgr, unref_switch_response_info hrt, Bool.false_eq_true, if_false]
      have h0 : ¬ (r.ref_cnt - 1 = 0) := by omega
      simp [h0]
    · rw [List.getElem?_set_ne hne, hl]

/-! ## Linking and reading (`ppb_url_loader.c`) -/

theorem take_min_length_eq (l : List Nat) (k : Nat) : l.take k = l.take (min k l.length) := by
  by_cases h : k ≤ l.length
  · rw [Nat.min_eq_left h]
  · have h2 : l.length ≤ k := by omega
    rw [Nat.min_eq_right h2, List.take_of_length_le h2, List.take_of_length_le (le_refl _)]

/-- The libc model at a non-negative offset and a non-negative count: the
number of bytes delivered and the bytes themselves. -/
theorem fread_at_offset (bytes : List Nat) (stream_pos : Nat) (p k : Int) (hp : 0 ≤ p)
    (hk : 0 ≤ k) :
    ((fread bytes (fseek_set stream_pos p) (size_t_of_int k)).length : Int)
      = min k (max ((bytes.length : Int) - p) 0) ∧
    fread bytes (fseek_set stream_pos p) (size_t_of_int k)
      = (bytes.drop p.toNat).take (min k (max ((bytes.length : Int) - p) 0)).toNat := by
  have e1 : fseek_set stream_pos p = p.toNat := by
    simp [fseek_set, not_lt.2 hp]
  have e2 : size_t_of_int k = k.toNat := by
    simp [size_t_of_int, not_lt.2 hk]
  have e3 : (min k (max ((bytes.length : Int) - p) 0)).toNat
      = min k.toNat ((bytes.drop p.toNat).length) := by
    rw [List.length_drop]
    omega
  rw [e1, e2]
  unfold fread
  constructor
  · rw [List.length_take, List.length_drop]
    omega
  · rw [e3]
    exact take_min_length_eq _ _

theorem unref_switch_safe {p : pp_resource_generic_s} (hd : p.data ≠ buf_ptr.dangling)
    (hc : p.type ≠ PP_RESOURCE_UNKNOWN → 0 ≤ p.ref_cnt) :
    ∃ q parent, unref_switch p = outcome.ok (q, parent) ∧ (q.ref_cnt ≠ 0 → q = p) := by
  obtain ⟨ty, rc, ul, hdr, bd, u, d, fp, rp⟩ := p
  simp only at hd hc
  cases ty <;> simp only [unref_switch]
  case PP_RESOURCE_URL_LOADER =>
    have h0 := hc (by decide)
    split
    · exact ⟨_, _, rfl, fun h => absurd (by simp only at h ⊢; omega) h⟩
    · exact ⟨_, _, rfl, fun _ => rfl⟩
  case PP_RESOURCE_IMAGE_DATA =>
    have h0 := hc (by decide)
    split
    · cases d with
      | null => exact ⟨_, _, rfl, fun _ => rfl⟩
      | owned => exact ⟨_, _, rfl, fun h => absurd (by simp only at h ⊢; omega) h⟩
      | dangling => exact absurd rfl hd
    · exact ⟨_, _, rfl, fun _ => rfl⟩
  case PP_RESOURCE_GRAPHICS2D =>
    have h0 := hc (by decide)
    split
    · cases d with
      | null => exact ⟨_, _, rfl, fun _ => rfl⟩
      | owned => exact ⟨_, _, rfl, fun h => absurd (by simp only at h ⊢; omega) h⟩
      | dangling => exact absurd rfl hd
    · exact ⟨_, _, rfl, fun _ => rfl⟩
  all_goals exact ⟨_, _, rfl, fun _ => rfl⟩

theorem well_counted_set {t : res_tbl_t} (ht : well_counted t) (k : Nat)
    (v : Option pp_resource_generic_s)
    (hv : ∀ q, v = some q →
      q.data ≠ buf_ptr.dangling ∧ (q.type ≠ PP_RESOURCE_UNKNOWN → 1 ≤ q.ref_cnt)) :
    well_counted (t.set k v) := by
  intro i obj h
  rw [List.getElem?_set] at h
  split at h
  · split at h
    · exact hv obj (by simpa using h)
    · cases h
  · exact ht i obj h

theorem well_counted_expunge {t : res_tbl_t} (ht : well_counted t) (resource : Int) :
    well_counted (pp_resource_expunge t resource) := by
  unfold pp_resource_expunge
  split
  · exact ht
  · exact well_counted_set ht _ _ (fun q hq => by cases hq)

theorem well_counted_allocate {t : res_tbl_t} (ht : well_counted t)
    (type : pp_resource_type_e) : well_counted (pp_resource_allocate t type).2 := by
  intro i obj h
  simp only [pp_resource_allocate] at h
  by_cases hi : i < t.length
  · rw [List.getElem?_append_left hi] at h
    exact ht i obj h
  · rw [List.getElem?_append_right (Nat.le_of_not_lt hi)] at h
    have h2 : i - t.length = 0 := by
      by_contra hne
      have : ([some (alloc_obj type)] : res_tbl_t)[i - t.length]? = none :=
        List.getElem?_eq_none (by simp; omega)
      rw [this] at h
      cases h
    rw [h2] at h
    have : alloc_obj type = obj := by simpa using h
    subst this
    cases type <;> simp [alloc_obj, calloc]

theorem well_counted_ref {t tbl : res_tbl_t} {resource : Int} (ht : well_counted t)
    (h : pp_resource_ref t resource = outcome.ok tbl) : well_counted tbl := by
  unfold pp_resource_ref at h
  split at h
  · cases h; exact ht
  · next hr =>
    have hr2 : out_of_range t resource = false := by simpa using hr
    split at h
    · cases h
    · next ptr hg =>
      cases h
      have hp := ht _ _ (getElem?_of_g_array_index hr2 hg)
      apply well_counted_set ht
      intro q hq
      have : q = { ptr with ref_cnt := ptr.ref_cnt + 1 } := by simpa using hq.symm
      subst this
      refine ⟨hp.1, fun hne => ?_⟩
      have := hp.2 hne
      simp only
      omega

theorem well_counted_unref_fuel (fuel : Nat) :
    ∀ (t tbl : res_tbl_t) (resource : Int), well_counted t →
      pp_resource_unref_fuel fuel t resource = outcome.ok tbl → well_counted tbl := by
  induction fuel with
  | zero => intro t tbl resource _ h; simp [pp_resource_unref_fuel] at h
  | succ n ih =>
    intro t tbl resource ht h
    rw [unref_fuel_unfold] at h
    by_cases hr : out_of_range t resource = true
    · simp only [hr, if_true] at h
      cases h; exact ht
    · have hr2 : out_of_range t resource = false := by simpa using hr
      simp only [hr2, Bool.false_eq_true, if_false] at h
      cases hg : g_array_index t resource with
      | none => rw [hg] at h; cases h
      | some obj =>
        rw [hg] at h
        simp only at h
        have hobj := ht _ _ (getElem?_of_g_array_index hr2 hg)
        obtain ⟨ptr, parent, hsw, hsame⟩ :=
          unref_switch_safe (p := { obj with ref_cnt := obj.ref_cnt - 1 }) hobj.1
            (fun hne => by have := hobj.2 hne; simp only; omega)
        rw [hsw] at h
        simp only [expunge_set_self hr2] at h
        have hnone : well_counted (t.set resource.toNat none) :=
          well_counted_set ht _ _ (fun q hq => by cases hq)
        by_cases h0 : ptr.ref_cnt = 0
        · by_cases hp : parent = 0
          · simp only [h0, if_true, ne_eq, hp, not_true_eq_false, if_false] at h
            cases h; exact hnone
          · simp only [h0, if_true, ne_eq, hp, not_false_eq_true] at h
            exact ih _ _ _ hnone h
        · simp only [h0, if_false] at h
          cases h
          have hq := hsame h0
          apply well_counted_set ht
          intro q hq2
          have : q = ptr := by simpa using hq2.symm
          subst this
          rw [hq] at h0 ⊢
          refine ⟨hobj.1, fun hne => ?_⟩
          have h1 := hobj.2 hne
          simp only at h0 ⊢
          omega

theorem well_counted_step {t tbl : res_tbl_t} {c : call} (ht : well_counted t)
    (h : step t c = outcome.ok tbl) : well_counted tbl := by
  cases c with
  | allocate type =>
    simp only [step] at h
    cases h
    exact well_counted_allocate ht type
  | ref resource => exact well_counted_ref ht h
  | unref resource => exact well_counted_unref_fuel _ _ _ _ ht h
  | expunge resource =>
    simp only [step] at h
    cases h
    exact well_counted_expunge ht resource

theorem well_counted_store_url_loader {t tbl : res_tbl_t} {resource loader : Int}
    (ht : well_counted t) (hpos : 0 ≤ resource) (hlt : resource < (t.length : Int))
    (h : store_url_loader t resource loader = outcome.ok tbl) : well_counted tbl := by
  unfold store_url_loader at h
  split at h
  · cases h
  · next ri hg =>
    cases h
    have hslot : t[resource.toNat]? = some (some ri) := by
      have hl : resource.toNat < t.length := by omega
      rw [g_array_index_eq_getElem?, List.getElem?_eq_getElem hl] at hg
      rw [List.getElem?_eq_getElem hl]
      simpa using hg
    have hp := ht _ _ hslot
    apply well_counted_set ht
    intro q hq
    have : q = { ri with url_loader := loader } := by simpa using hq.symm
    subst this
    exact hp

theorem well_counted_get_response_info {t : res_tbl_t} {loader : Int}
    {r : Int × res_tbl_t} (ht : well_counted t)
    (h : ppb_url_loader_get_response_info t loader = outcome.ok r) : well_counted r.2 := by
  simp only [ppb_url_loader_get_response_info, pp_resource_release] at h
  split at h
  · split at h
    · split at h
      · next tbl3 href =>
        split at h
        · next tbl4 hstore =>
          cases h
          have h1 := well_counted_allocate ht PP_RESOURCE_URL_RESPONSE_INFO
          have h3 := well_counted_ref h1 href
          refine well_counted_store_url_loader h3 ?_ ?_ hstore
          · simp [pp_resource_allocate]
          · rw [length_ref href]
            simp [pp_resource_allocate]
        · cases h
        · cases h
      · cases h
      · cases h
    · cases h
    · cases h
    · cases h
  · cases h
  · cases h
  · cases h

theorem well_counted_store_payload {t : res_tbl_t} (ht : well_counted t) (resource : Int)
    (headers body url data : Bool) :
    well_counted (store_payload t resource headers body url data) := by
  unfold store_payload pp_resource_acquire_any
  split
  · exact ht
  · next obj hacq =>
    split at hacq
    · cases hacq
    · next hr =>
      have hr2 : out_of_range t resource = false := by simpa using hr
      have hp := ht _ _ (getElem?_of_g_array_index hr2 hacq)
      apply well_counted_set ht
      intro q hq
      have hq2 := Option.some.inj hq
      subst hq2
      refine ⟨?_, hp.2⟩
      cases data <;> simp

theorem well_counted_client_run (cs : List client_call) :
    ∀ (t tbl : res_tbl_t), well_counted t → client_run t cs = outcome.ok tbl →
      well_counted tbl := by
  induction cs with
  | nil => intro t tbl ht h; simp [client_run] at h; subst h; exact ht
  | cons c cs ih =>
    intro t tbl ht h
    unfold client_run at h
    split at h
    · next t1 hstep =>
      refine ih _ _ ?_ h
      cases c with
      | registry c => exact well_counted_step ht hstep
      | get_response_info loader =>
        simp only [client_step] at hstep
        split at hstep
        · next r hr =>
          cases hstep
          exact well_counted_get_response_info ht hr
        · cases hstep
        · cases hstep
      | store_payload resource headers body url data =>
        simp only [client_step] at hstep
        cases hstep
        exact well_counted_store_payload ht _ _ _ _ _
    · cases h
    · cases h

theorem well_counted_of_client_reachable {t : res_tbl_t} (h : client_reachable t) :
    well_counted t := by
  obtain ⟨cs, hcs⟩ := h
  refine well_counted_client_run cs _ _ ?_ hcs
  intro i obj hi
  cases i with
  | zero => simp [pp_resource_constructor] at hi
  | succ i => simp [pp_resource_constructor] at hi

theorem client_run_of_run (cs : List call) : ∀ (t tbl : res_tbl_t),
    run t cs = outcome.ok tbl →
    client_run t (cs.map client_call.registry) = outcome.ok tbl := by
  induction cs with
  | nil => intro t tbl h; simpa [run, client_run] using h
  | cons c cs ih =>
    intro t tbl h
    unfold run at h
    simp only [List.map_cons, client_run, client_step]
    split at h
    · exact ih _ _ h
    · cases h
    · cases h

theorem client_reachable_of_reachable {t : res_tbl_t} (h : reachable t) :
    client_reachable t := by
  obtain ⟨cs, hcs⟩ := h
  exact ⟨cs.map client_call.registry, client_run_of_run cs _ _ hcs⟩

/-! ## The claims -/

/-- C1: in every reachable table, the handle returned by `pp_resource_allocate`
for a type tag resolves at once to that tag through `pp_resource_get_type`,
`pp_resource_acquire` with the same tag returns the object held in the handle's
slot, and `pp_resource_acquire` with any other tag returns `NULL` (not found). -/
theorem allocate_then_lookup (res_tbl : res_tbl_t) (type : pp_resource_type_e)
    (hreach : reachable res_tbl) :
    pp_resource_get_type (pp_resource_allocate res_tbl type).2
        (pp_resource_allocate res_tbl type).1 = outcome.ok type ∧
    (∃ obj, (pp_resource_allocate res_tbl type).2[(pp_resource_allocate res_tbl type).1.toNat]?
          = some (some obj) ∧
        pp_resource_acquire (pp_resource_allocate res_tbl type).2
          (pp_resource_allocate res_tbl type).1 type = outcome.ok (some obj)) ∧
    ∀ type2, type2 ≠ type →
      pp_resource_acquire (pp_resource_allocate res_tbl type).2
        (pp_resource_allocate res_tbl type).1 type2 = outcome.ok none := by
  have hpos := reachable_length_pos hreach
  have hr := out_of_range_allocate hpos type
  have hg := g_array_index_allocate res_tbl type
  refine ⟨?_, ⟨alloc_obj type, ?_, ?_⟩, ?_⟩
  · simp [pp_resource_get_type, hr, hg, alloc_obj_type]
  · simp [pp_resource_allocate]
  · simp [pp_resource_acquire, pp_resource_acquire_any, hr, hg, alloc_obj_type]
  · intro type2 hne
    simp [pp_resource_acquire, pp_resource_acquire_any, hr, hg, alloc_obj_type, hne.symm]

/-- Witness of C1 on the table of `pp_resource_constructor` and a URL loader. -/
theorem allocate_then_lookup_witness :
    reachable pp_resource_constructor ∧
    pp_resource_get_type (pp_resource_allocate pp_resource_constructor PP_RESOURCE_URL_LOADER).2
        (pp_resource_allocate pp_resource_constructor PP_RESOURCE_URL_LOADER).1
      = outcome.ok PP_RESOURCE_URL_LOADER ∧
    pp_resource_acquire (pp_resource_allocate pp_resource_constructor PP_RESOURCE_URL_LOADER).2
        (pp_resource_allocate pp_resource_constructor PP_RESOURCE_URL_LOADER).1
        PP_RESOURCE_VIEW = outcome.ok none :=
  ⟨⟨[], rfl⟩,
    (allocate_then_lookup pp_resource_constructor PP_RESOURCE_URL_LOADER ⟨[], rfl⟩).1,
    (allocate_then_lookup pp_resource_constructor PP_RESOURCE_URL_LOADER ⟨[], rfl⟩).2.2
      PP_RESOURCE_VIEW (by decide)⟩

/-- C2 at the kind `PP_RESOURCE_UNKNOWN`, whose object starts with counter 0:
with `n = 0` the single `pp_resource_unref` leaves the slot live with counter
`-1`; with `n = 1` the first of the two unref calls already clears the slot
and the second one dereferences its `NULL` pointer. -/
theorem unknown_kind_ref_unref_unbalanced :
    unref_n (pp_resource_allocate pp_resource_constructor PP_RESOURCE_UNKNOWN).2
        (pp_resource_allocate pp_resource_constructor PP_RESOURCE_UNKNOWN).1 1
      = outcome.ok [none, some { calloc with type := PP_RESOURCE_UNKNOWN, ref_cnt := -1 }] ∧
    ref_n (pp_resource_allocate pp_resource_constructor PP_RESOURCE_UNKNOWN).2 1 1
      = outcome.ok [none, some { calloc with type := PP_RESOURCE_UNKNOWN, ref_cnt := 1 }] ∧
    unref_n [none, some { calloc with type := PP_RESOURCE_UNKNOWN, ref_cnt := 1 }] 1 1
      = outcome.ok [none, none] ∧
    unref_n [none, some { calloc with type := PP_RESOURCE_UNKNOWN, ref_cnt := 1 }] 1 2
      = outcome.fault := by
  decide

/-- C3: let `R` be a live URL response info whose `url_loader` field is the
handle `L` of a live URL loader with counter `c`. When `R` has counter 1,
`pp_resource_unref R` is exactly `pp_resource_unref L` run on the table in
which `R` has been expunged: it completes, slot `R` is `NULL`, slot `L` is
`NULL` when `c = 1` and otherwise holds the loader with counter `c - 1`, and
all other slots are untouched. When `R` has another counter, the call only
decrements the counter of `R`, and slot `L` is as before. -/
theorem unref_parent_cascade (res_tbl : res_tbl_t) (R L : Int) (r l : pp_resource_generic_s)
    (hR : 1 ≤ R ∧ R < (res_tbl.length : Int)) (hr : res_tbl[R.toNat]? = some (some r))
    (hrt : r.type = PP_RESOURCE_URL_RESPONSE_INFO) (hp : r.url_loader = L)
    (hL : 1 ≤ L ∧ L < (res_tbl.length : Int)) (hl : res_tbl[L.toNat]? = some (some l))
    (hlt : l.type = PP_RESOURCE_URL_LOADER) :
    (r.ref_cnt = 1 →
      pp_resource_unref res_tbl R = pp_resource_unref (pp_resource_expunge res_tbl R) L ∧
      ∃ tbl, pp_resource_unref res_tbl R = outcome.ok tbl ∧
        tbl[R.toNat]? = some none ∧
        (l.ref_cnt = 1 → tbl[L.toNat]? = some none) ∧
        (l.ref_cnt ≠ 1 → ∃ l2, tbl[L.toNat]? = some (some l2) ∧
          l2.ref_cnt = l.ref_cnt - 1 ∧ l2.type = PP_RESOURCE_URL_LOADER) ∧
        ∀ i, i ≠ R.toNat → i ≠ L.toNat → tbl[i]? = res_tbl[i]?) ∧
    (r.ref_cnt ≠ 1 →
      pp_resource_unref res_tbl R
        = outcome.ok (res_tbl.set R.toNat (some { r with ref_cnt := r.ref_cnt - 1 })) ∧
      (res_tbl.set R.toNat (some { r with ref_cnt := r.ref_cnt - 1 }))[L.toNat]?
        = some (some l)) :=
  unref_cascade_core res_tbl R L r l hR hr hrt hp hL hl hlt

/-- Witness of C3: loader at handle 1 with counter 2, response info at handle 2
with counter 1 and parent 1. -/
theorem unref_parent_cascade_witness :
    pp_resource_unref
      [none, some { alloc_obj PP_RESOURCE_URL_LOADER with ref_cnt := 2 },
        some { alloc_obj PP_RESOURCE_URL_RESPONSE_INFO with url_loader := 1 }] 2
      = pp_resource_unref
          (pp_resource_expunge
            [none, some { alloc_obj PP_RESOURCE_URL_LOADER with ref_cnt := 2 },
              some { alloc_obj PP_RESOURCE_URL_RESPONSE_INFO with url_loader := 1 }] 2) 1 :=
  ((unref_parent_cascade
      [none, some { alloc_obj PP_RESOURCE_URL_LOADER with ref_cnt := 2 },
        some { alloc_obj PP_RESOURCE_URL_RESPONSE_INFO with url_loader := 1 }] 2 1
      { alloc_obj PP_RESOURCE_URL_RESPONSE_INFO with url_loader := 1 }
      { alloc_obj PP_RESOURCE_URL_LOADER with ref_cnt := 2 }
      (by decide) rfl rfl rfl (by decide) rfl rfl).1 rfl).1

/-- C4 at the kind `PP_RESOURCE_UNKNOWN`: the object appended by
`pp_resource_allocate` has counter 0, not 1. -/
theorem allocate_unknown_ref_cnt_zero :
    (pp_resource_allocate pp_resource_constructor PP_RESOURCE_UNKNOWN).1 = 1 ∧
    ((pp_resource_allocate pp_resource_constructor PP_RESOURCE_UNKNOWN).2[1]?).map
        (Option.map pp_resource_generic_s.ref_cnt) = some (some 0) := by
  decide

/-- C5 on a reachable table: after allocate and the final unref of handle 1 the
slot is `NULL`, and a further `pp_resource_unref 1` dereferences that `NULL`
pointer instead of returning. -/
theorem unref_expunged_faults :
    run pp_resource_constructor [call.allocate PP_RESOURCE_URL_LOADER, call.unref 1]
      = outcome.ok [none, none] ∧
    pp_resource_unref [none, none] 1 = outcome.fault := by
  decide

/-- C6 on a reachable table: after allocate and expunge of handle 1 the slot is
`NULL` and in range, and `pp_resource_get_type 1` dereferences that `NULL`
pointer instead of returning `PP_RESOURCE_UNKNOWN`. -/
theorem get_type_expunged_faults :
    run pp_resource_constructor [call.allocate PP_RESOURCE_VIEW, call.expunge 1]
      = outcome.ok [none, none] ∧
    out_of_range [none, none] 1 = false ∧
    pp_resource_get_type [none, none] 1 = outcome.fault := by
  decide

/-- C7 on the table of `pp_resource_constructor` and on a table with an
expunged slot: for handle 0, for a handle beyond the table and for a handle
with a `NULL` slot, `pp_resource_acquire` dereferences the `NULL` returned by
`pp_resource_acquire_any` instead of returning not-found. -/
theorem acquire_invalid_faults :
    pp_resource_acquire_any pp_resource_constructor 0 = none ∧
    pp_resource_acquire pp_resource_constructor 0 PP_RESOURCE_URL_LOADER = outcome.fault ∧
    pp_resource_acquire pp_resource_constructor 7 PP_RESOURCE_URL_LOADER = outcome.fault ∧
    pp_resource_acquire [none, none] 1 PP_RESOURCE_URL_LOADER = outcome.fault := by
  decide

/-- C8: a handle that is not positive or not below the table length (one that
`pp_resource_allocate` never returned) has type `PP_RESOURCE_UNKNOWN` for
`pp_resource_get_type` and is not found (`NULL`) by `pp_resource_acquire_any`;
this holds in every table, reachable or not. -/
theorem lookup_of_unallocated (res_tbl : res_tbl_t) (resource : Int)
    (h : resource ≤ 0 ∨ resource ≥ (res_tbl.length : Int)) :
    pp_resource_get_type res_tbl resource = outcome.ok PP_RESOURCE_UNKNOWN ∧
    pp_resource_acquire_any res_tbl resource = none := by
  have hr : out_of_range res_tbl resource = true := by
    rw [out_of_range_eq_true]; omega
  simp [pp_resource_get_type, pp_resource_acquire_any, hr]

/-- Witness of C8: handle 5 on a reachable table of length 2. -/
theorem lookup_of_unallocated_witness :
    reachable (pp_resource_allocate pp_resource_constructor PP_RESOURCE_VIEW).2 ∧
    pp_resource_get_type (pp_resource_allocate pp_resource_constructor PP_RESOURCE_VIEW).2 5
      = outcome.ok PP_RESOURCE_UNKNOWN ∧
    pp_resource_acquire_any (pp_resource_allocate pp_resource_constructor PP_RESOURCE_VIEW).2 5
      = none :=
  ⟨⟨[call.allocate PP_RESOURCE_VIEW], rfl⟩,
    lookup_of_unallocated (pp_resource_allocate pp_resource_constructor PP_RESOURCE_VIEW).2 5
      (by decide)⟩

/-- C9: `pp_resource_acquire_any` returns an object exactly when the handle is
at least 1, below the table length and its slot is not `NULL`, and then it is
the object of that slot; after `pp_resource_expunge` of a handle,
`pp_resource_acquire_any` of the same handle returns `NULL`. -/
theorem acquire_any_iff_live (res_tbl : res_tbl_t) (resource : Int) :
    (∀ obj, pp_resource_acquire_any res_tbl resource = some obj ↔
      (1 ≤ resource ∧ resource < (res_tbl.length : Int) ∧
        res_tbl[resource.toNat]? = some (some obj))) ∧
    pp_resource_acquire_any (pp_resource_expunge res_tbl resource) resource = none := by
  constructor
  · intro obj
    unfold pp_resource_acquire_any
    by_cases hr : out_of_range res_tbl resource = true
    · rw [if_pos hr]
      have := out_of_range_eq_true.1 hr
      constructor
      · intro h; cases h
      · intro h; omega
    · have hr2 : out_of_range res_tbl resource = false := by simpa using hr
      rw [if_neg hr]
      have hb := out_of_range_eq_false.1 hr2
      have hlt := toNat_lt_length hr2
      rw [g_array_index_eq_getElem?, List.getElem?_eq_getElem hlt]
      simp [hb.1, hb.2]
  · unfold pp_resource_acquire_any
    by_cases hr : out_of_range res_tbl resource = true
    · have : out_of_range (pp_resource_expunge res_tbl resource) resource = true := by
        rw [out_of_range_congr (length_expunge res_tbl resource)]; exact hr
      rw [if_pos this]
    · have hr2 : out_of_range res_tbl resource = false := by simpa using hr
      have : out_of_range (pp_resource_expunge res_tbl resource) resource = false := by
        rw [out_of_range_congr (length_expunge res_tbl resource)]; exact hr2
      simp only [this, Bool.false_eq_true, if_false]
      rw [expunge_in_range hr2, g_array_index_set_self hr2]

/-- Witness of C9: a live handle is found, and no longer after its expunge. -/
theorem acquire_any_iff_live_witness :
    pp_resource_acquire_any [none, some (alloc_obj PP_RESOURCE_VIEW)] 1
        = some (alloc_obj PP_RESOURCE_VIEW) ∧
    pp_resource_acquire_any
        (pp_resource_expunge [none, some (alloc_obj PP_RESOURCE_VIEW)] 1) 1 = none :=
  ⟨((acquire_any_iff_live [none, some (alloc_obj PP_RESOURCE_VIEW)] 1).1
      (alloc_obj PP_RESOURCE_VIEW)).2 ⟨by decide, by decide, rfl⟩,
    (acquire_any_iff_live [none, some (alloc_obj PP_RESOURCE_VIEW)] 1).2⟩

/-- C10: in every table reached from the table of `pp_resource_constructor` by
allocate, ref, unref and expunge calls, `pp_resource_allocate` returns the
current table length, which is at least 1; no completed sequence of calls makes
the table shorter; and an allocate call made after any completed sequence of
calls that follows an earlier allocate call returns a strictly greater handle
than the earlier one, hence a different one, whatever was expunged in between. -/
theorem handles_positive_never_reused (res_tbl : res_tbl_t) (hreach : reachable res_tbl) :
    (∀ type, (pp_resource_allocate res_tbl type).1 = (res_tbl.length : Int) ∧
        1 ≤ (pp_resource_allocate res_tbl type).1) ∧
    (∀ cs tbl, run res_tbl cs = outcome.ok tbl → res_tbl.length ≤ tbl.length) ∧
    (∀ type cs tbl type2, run (pp_resource_allocate res_tbl type).2 cs = outcome.ok tbl →
        (pp_resource_allocate res_tbl type).1 < (pp_resource_allocate tbl type2).1) := by
  have hpos := reachable_length_pos hreach
  refine ⟨?_, ?_, ?_⟩
  · intro type
    simp [pp_resource_allocate]
    omega
  · intro cs tbl h
    exact length_run cs _ _ h
  · intro type cs tbl type2 h
    have := length_run cs _ _ h
    simp [pp_resource_allocate] at this ⊢
    omega

/-- Witness of C10: allocate, expunge the handle, allocate again: handles 1 and 2. -/
theorem handles_positive_never_reused_witness :
    reachable pp_resource_constructor ∧
    (pp_resource_allocate pp_resource_constructor PP_RESOURCE_VIEW).1 <
      (pp_resource_allocate
        (pp_resource_expunge (pp_resource_allocate pp_resource_constructor PP_RESOURCE_VIEW).2 1)
        PP_RESOURCE_VIEW).1 :=
  ⟨⟨[], rfl⟩,
    (handles_positive_never_reused pp_resource_constructor ⟨[], rfl⟩).2.2
      PP_RESOURCE_VIEW [call.expunge 1] _ PP_RESOURCE_VIEW rfl⟩

/-- C11 on a reachable table: after `pp_resource_allocate` of the kind
`PP_RESOURCE_UNKNOWN` the slot holds an object with counter 0, and a following
`pp_resource_unref` leaves it in the table with counter `-1`. -/
theorem reachable_live_ref_cnt_below_one :
    run pp_resource_constructor [call.allocate PP_RESOURCE_UNKNOWN]
      = outcome.ok [none, some { calloc with type := PP_RESOURCE_UNKNOWN, ref_cnt := 0 }] ∧
    run pp_resource_constructor [call.allocate PP_RESOURCE_UNKNOWN, call.unref 1]
      = outcome.ok [none, some { calloc with type := PP_RESOURCE_UNKNOWN, ref_cnt := -1 }] := by
  decide

/-- C12: `pp_resource_expunge` applied twice to a handle gives the table of
the first application; on a handle below 1 or not below the table length, and
on a handle whose slot is already `NULL`, it returns the table it was given. -/
theorem expunge_idempotent (res_tbl : res_tbl_t) (resource : Int) :
    pp_resource_expunge (pp_resource_expunge res_tbl resource) resource
      = pp_resource_expunge res_tbl resource ∧
    ((resource < 1 ∨ resource ≥ (res_tbl.length : Int)) →
      pp_resource_expunge res_tbl resource = res_tbl) ∧
    (res_tbl[resource.toNat]? = some none → pp_resource_expunge res_tbl resource = res_tbl) := by
  refine ⟨?_, ?_, ?_⟩
  · by_cases hr : out_of_range res_tbl resource = true
    · simp [pp_resource_expunge, hr]
    · have hr2 : out_of_range res_tbl resource = false := by simpa using hr
      rw [expunge_in_range hr2, expunge_set_self hr2]
  · intro h
    have hr : out_of_range res_tbl resource = true := out_of_range_eq_true.2 (by omega)
    simp [pp_resource_expunge, hr]
  · intro h
    unfold pp_resource_expunge
    split
    · rfl
    · apply List.ext_getElem?
      intro i
      rw [List.getElem?_set]
      split
      · next hi =>
        subst hi
        rw [h]
        split
        · rfl
        · next hlt =>
          have := List.getElem?_eq_none (Nat.le_of_not_lt hlt)
          rw [this] at h
          cases h
      · rfl

/-- Witness of C12: handle 9 on a table of length 2, and handle 1 whose slot is
`NULL`. -/
theorem expunge_idempotent_witness :
    pp_resource_expunge [none, some (alloc_obj PP_RESOURCE_VIEW)] 9
        = [none, some (alloc_obj PP_RESOURCE_VIEW)] ∧
    pp_resource_expunge [none, none] 1 = [none, none] :=
  ⟨(expunge_idempotent [none, some (alloc_obj PP_RESOURCE_VIEW)] 9).2.1 (by decide),
    (expunge_idempotent [none, none] 1).2.2 rfl⟩

/-- C13 on a reachable table: after allocate and the final unref of handle 1
the slot is in range and `NULL`, and `pp_resource_ref 1` increments through
that `NULL` pointer instead of returning with the table unchanged. -/
theorem ref_expunged_faults :
    run pp_resource_constructor [call.allocate PP_RESOURCE_GRAPHICS3D, call.unref 1]
      = outcome.ok [none, none] ∧
    out_of_range [none, none] 1 = false ∧
    pp_resource_ref [none, none] 1 = outcome.fault := by
  decide

/-- C15: for each of the eight entry points (allocate, acquire_any, acquire,
release, get_type, ref, unref, expunge), when the call completes, every slot
that holds an object before and after the call holds the same type tag before
and after. -/
theorem type_tag_never_changes (res_tbl tbl : res_tbl_t) (c : api_call) (i : Nat)
    (obj obj2 : pp_resource_generic_s) (hstep : api_step res_tbl c = outcome.ok tbl)
    (hbefore : res_tbl[i]? = some (some obj)) (hafter : tbl[i]? = some (some obj2)) :
    obj2.type = obj.type := by
  have hsame : ∀ t : res_tbl_t, same_tags res_tbl t → t[i]? = some (some obj2) →
      obj2.type = obj.type := by
    intro t hs ht
    obtain ⟨obj1, h1, e1⟩ := hs.2 i obj2 ht
    rw [hbefore] at h1
    have : obj = obj1 := by simpa using h1
    rw [this]; exact e1
  cases c with
  | allocate type =>
    simp only [api_step, pp_resource_allocate] at hstep
    cases hstep
    have hlt : i < res_tbl.length := by
      by_contra hge
      rw [List.getElem?_eq_none (Nat.le_of_not_lt hge)] at hbefore
      cases hbefore
    rw [List.getElem?_append_left hlt, hbefore] at hafter
    have : obj = obj2 := by simpa using hafter
    rw [this]
  | acquire_any resource =>
    simp only [api_step] at hstep
    cases hstep
    exact hsame _ (same_tags_refl _) hafter
  | acquire resource type =>
    simp only [api_step] at hstep
    split at hstep
    · cases hstep; exact hsame _ (same_tags_refl _) hafter
    · cases hstep; exact hsame _ (same_tags_refl _) hafter
    · cases hstep
    · cases hstep
  | release resource =>
    simp only [api_step] at hstep
    cases hstep
    exact hsame _ (same_tags_refl _) hafter
  | get_type resource =>
    simp only [api_step] at hstep
    split at hstep
    · cases hstep; exact hsame _ (same_tags_refl _) hafter
    · cases hstep
    · cases hstep
  | ref resource => exact hsame _ (ref_same_tags hstep) hafter
  | unref resource => exact hsame _ (unref_fuel_same_tags _ _ _ _ hstep) hafter
  | expunge resource =>
    simp only [api_step] at hstep
    cases hstep
    refine hsame _ ?_ hafter
    unfold pp_resource_expunge
    split
    · exact same_tags_refl _
    · exact same_tags_set_none _ _

/-- Witness of C15: a ref of a live view at handle 1 keeps its tag. -/
theorem type_tag_never_changes_witness :
    api_step [none, some (alloc_obj PP_RESOURCE_VIEW)] (api_call.ref 1)
      = outcome.ok [none, some { alloc_obj PP_RESOURCE_VIEW with ref_cnt := 2 }] ∧
    ({ alloc_obj PP_RESOURCE_VIEW with ref_cnt := 2 } : pp_resource_generic_s).type
      = (alloc_obj PP_RESOURCE_VIEW).type :=
  ⟨by decide,
    type_tag_never_changes [none, some (alloc_obj PP_RESOURCE_VIEW)]
      [none, some { alloc_obj PP_RESOURCE_VIEW with ref_cnt := 2 }] (api_call.ref 1) 1
      (alloc_obj PP_RESOURCE_VIEW) { alloc_obj PP_RESOURCE_VIEW with ref_cnt := 2 }
      (by decide) rfl rfl⟩

/-- C16: for a live URL loader whose `fp` is a byte store of length `n`, with
read cursor `p ≥ 0` and request size `k ≥ 0`, wherever the stream stood before,
`ppb_url_loader_read_response_body` returns `r = min k (max (n - p) 0)`, stores
into the buffer exactly the `r` bytes of the store from position `p` on, and
leaves the table with the cursor of the loader at `p + r` and nothing else
changed; for a loader whose `fp` is `NULL` it returns 0, stores nothing and
leaves the table as it was. -/
theorem read_response_body_positioned (res_tbl : res_tbl_t) (loader : Int)
    (ul : pp_resource_generic_s) (bytes_to_read : Int) (stream_pos : Nat)
    (hL : 1 ≤ loader ∧ loader < (res_tbl.length : Int))
    (hslot : res_tbl[loader.toNat]? = some (some ul))
    (hty : ul.type = PP_RESOURCE_URL_LOADER)
    (hp : 0 ≤ ul.read_pos) (hk : 0 ≤ bytes_to_read) :
    (∀ bytes, ul.fp = some bytes →
      ppb_url_loader_read_response_body res_tbl loader bytes_to_read stream_pos
        = outcome.ok
            (min bytes_to_read (max ((bytes.length : Int) - ul.read_pos) 0),
             (bytes.drop ul.read_pos.toNat).take
               (min bytes_to_read (max ((bytes.length : Int) - ul.read_pos) 0)).toNat,
             res_tbl.set loader.toNat (some { ul with read_pos :=
               (ul.read_pos + min bytes_to_read (max ((bytes.length : Int) - ul.read_pos) 0)) }))) ∧
    (ul.fp = none →
      ppb_url_loader_read_response_body res_tbl loader bytes_to_read stream_pos
        = outcome.ok (0, [], res_tbl)) := by
  have hr : out_of_range res_tbl loader = false := out_of_range_eq_false.2 hL
  have hg : g_array_index res_tbl loader = some ul := by
    rw [g_array_index_eq_getElem?, hslot]; rfl
  have hacq : pp_resource_acquire res_tbl loader PP_RESOURCE_URL_LOADER
      = outcome.ok (some ul) := by
    simp [pp_resource_acquire, pp_resource_acquire_any, hr, hg, hty]
  constructor
  · intro bytes hfp
    obtain ⟨hlen, hbuf⟩ := fread_at_offset bytes stream_pos ul.read_pos bytes_to_read hp hk
    unfold ppb_url_loader_read_response_body
    rw [hacq]
    simp only [hfp, hlen, pp_resource_release, store_read_pos, hg]
    rw [hbuf]
  · intro hfp
    unfold ppb_url_loader_read_response_body
    rw [hacq]
    simp only [hfp, pp_resource_release]

/-- Witness of C16: a store of five bytes, cursor 3, eight bytes requested:
two bytes are delivered and the cursor moves to 5. -/
theorem read_response_body_positioned_witness :
    ppb_url_loader_read_response_body
        [none, some { alloc_obj PP_RESOURCE_URL_LOADER with
          fp := some [10, 11, 12, 13, 14], read_pos := 3 }] 1 8 0
      = outcome.ok (2, [13, 14],
          [none, some { alloc_obj PP_RESOURCE_URL_LOADER with
            fp := some [10, 11, 12, 13, 14], read_pos := 5 }]) :=
  (read_response_body_positioned
    [none, some { alloc_obj PP_RESOURCE_URL_LOADER with
      fp := some [10, 11, 12, 13, 14], read_pos := 3 }] 1
    { alloc_obj PP_RESOURCE_URL_LOADER with fp := some [10, 11, 12, 13, 14], read_pos := 3 }
    8 0 (by decide) rfl rfl (by decide) (by decide)).1 [10, 11, 12, 13, 14] rfl

/-- C17: `pp_resource_release` returns the table it was given for every handle,
and on a handle whose slot holds an object the calls of
`pp_resource_acquire_any`, `pp_resource_get_type` and `pp_resource_acquire`
(with the object's tag or any other) complete and leave the table as it was. -/
theorem lookups_read_only (res_tbl : res_tbl_t) (resource : Int) :
    pp_resource_release res_tbl resource = res_tbl ∧
    api_step res_tbl (api_call.release resource) = outcome.ok res_tbl ∧
    ∀ obj, 1 ≤ resource → resource < (res_tbl.length : Int) →
      res_tbl[resource.toNat]? = some (some obj) →
      api_step res_tbl (api_call.acquire_any resource) = outcome.ok res_tbl ∧
      api_step res_tbl (api_call.get_type resource) = outcome.ok res_tbl ∧
      ∀ type, api_step res_tbl (api_call.acquire resource type) = outcome.ok res_tbl := by
  refine ⟨rfl, rfl, ?_⟩
  intro obj h1 h2 hslot
  have hr : out_of_range res_tbl resource = false := out_of_range_eq_false.2 ⟨h1, h2⟩
  have hg : g_array_index res_tbl resource = some obj := by
    rw [g_array_index_eq_getElem?, hslot]; rfl
  refine ⟨rfl, ?_, ?_⟩
  · simp [api_step, pp_resource_get_type, hr, hg]
  · intro type
    by_cases ht : obj.type = type
    · simp [api_step, pp_resource_acquire, pp_resource_acquire_any, hr, hg, ht]
    · simp [api_step, pp_resource_acquire, pp_resource_acquire_any, hr, hg, ht,
        pp_resource_release]

/-- Witness of C17: a live view at handle 1, acquired with a tag that differs. -/
theorem lookups_read_only_witness :
    api_step [none, some (alloc_obj PP_RESOURCE_VIEW)]
        (api_call.acquire 1 PP_RESOURCE_URL_LOADER)
      = outcome.ok [none, some (alloc_obj PP_RESOURCE_VIEW)] :=
  ((lookups_read_only [none, some (alloc_obj PP_RESOURCE_VIEW)] 1).2.2
    (alloc_obj PP_RESOURCE_VIEW) (by decide) (by decide) rfl).2.2 PP_RESOURCE_URL_LOADER

/-- C19: in every table reached by client calls (allocate, ref, unref, and
also expunge, links and stores that hand payload buffers to objects), let a
slot hold a URL loader, an image data or a 2D graphics object. Its counter is
at least 1. When `pp_resource_unref` of its handle finds the counter after the
decrement at most 0, that counter is exactly 0 and the call returns the table
in which the slot is expunged. The call always completes (no buffer is freed a
second time), and when the slot still holds an object afterwards, `headers`,
`body`, `url` and `data` of that object are the ones it had before the call
and its counter is one less: a payload is only freed together with the
expunge. No object of the table keeps a pointer to a freed `data` buffer. -/
theorem payload_teardown_with_expunge (res_tbl : res_tbl_t) (resource : Int)
    (obj : pp_resource_generic_s) (hreach : client_reachable res_tbl)
    (hR : 1 ≤ resource ∧ resource < (res_tbl.length : Int))
    (hslot : res_tbl[resource.toNat]? = some (some obj))
    (hkind : obj.type = PP_RESOURCE_URL_LOADER ∨ obj.type = PP_RESOURCE_IMAGE_DATA ∨
      obj.type = PP_RESOURCE_GRAPHICS2D) :
    1 ≤ obj.ref_cnt ∧
    (obj.ref_cnt - 1 ≤ 0 →
      obj.ref_cnt - 1 = 0 ∧
      pp_resource_unref res_tbl resource = outcome.ok (pp_resource_expunge res_tbl resource) ∧
      (pp_resource_expunge res_tbl resource)[resource.toNat]? = some none) ∧
    (∃ tbl, pp_resource_unref res_tbl resource = outcome.ok tbl ∧
      ∀ obj2, tbl[resource.toNat]? = some (some obj2) →
        obj2.headers = obj.headers ∧ obj2.body = obj.body ∧ obj2.url = obj.url ∧
        obj2.data = obj.data ∧ obj2.ref_cnt = obj.ref_cnt - 1) ∧
    (∀ (i : Nat) (o : pp_resource_generic_s), res_tbl[i]? = some (some o) →
      o.data ≠ buf_ptr.dangling) := by
  have hwc := well_counted_of_client_reachable hreach
  have hinv := hwc _ _ hslot
  have hr : out_of_range res_tbl resource = false := out_of_range_eq_false.2 hR
  have hlt := toNat_lt_length hr
  have hg : g_array_index res_tbl resource = some obj := by
    rw [g_array_index_eq_getElem?, hslot]; rfl
  have hne : obj.type ≠ PP_RESOURCE_UNKNOWN := by
    rcases hkind with h | h | h <;> rw [h] <;> decide
  have hcnt := hinv.2 hne
  have hlast : obj.ref_cnt = 1 →
      pp_resource_unref res_tbl resource
        = outcome.ok (pp_resource_expunge res_tbl resource) := by
    intro h1
    unfold pp_resource_unref
    rw [unref_fuel_unfold, expunge_in_range hr]
    obtain ⟨ty, rc, ul, hdr, bd, u, d, fp, rp⟩ := obj
    simp only at h1 hkind
    have hd : d ≠ buf_ptr.dangling := hinv.1
    subst h1
    rcases hkind with h | h | h <;> subst h <;> cases d <;>
      first
        | exact absurd rfl hd
        | simp [hr, hg, unref_switch, expunge_set_self hr]
  have hnull : (pp_resource_expunge res_tbl resource)[resource.toNat]? = some none := by
    rw [expunge_in_range hr]
    simp [List.getElem?_set, hlt]
  refine ⟨hcnt, ?_, ?_, fun i o ho => (hwc i o ho).1⟩
  · intro hle
    exact ⟨by omega, hlast (by omega), hnull⟩
  · by_cases h1 : obj.ref_cnt = 1
    · refine ⟨_, hlast h1, ?_⟩
      intro obj2 h2
      rw [hnull] at h2
      cases h2
    · refine ⟨_, unref_keep hr hg (by omega), ?_⟩
      intro obj2 h2
      simp only [List.getElem?_set, hlt, if_true] at h2
      have : obj2 = { obj with ref_cnt := obj.ref_cnt - 1 } := by simpa using h2.symm
      subst this
      exact ⟨rfl, rfl, rfl, rfl, rfl⟩

/-- Witness of C19: an image data at handle 1 that was handed a buffer and
referenced once more (counter 2): the unref leaves it live with counter 1 and
its buffer still owned. -/
theorem payload_teardown_with_expunge_witness :
    client_run pp_resource_constructor
        [client_call.registry (call.allocate PP_RESOURCE_IMAGE_DATA),
          client_call.store_payload 1 false false false true,
          client_call.registry (call.ref 1)]
      = outcome.ok [none, some { alloc_obj PP_RESOURCE_IMAGE_DATA with
          ref_cnt := 2, data := buf_ptr.owned }] ∧
    pp_resource_unref [none, some { alloc_obj PP_RESOURCE_IMAGE_DATA with
          ref_cnt := 2, data := buf_ptr.owned }] 1
      = outcome.ok [none, some { alloc_obj PP_RESOURCE_IMAGE_DATA with
          ref_cnt := 1, data := buf_ptr.owned }] ∧
    ∃ tbl, pp_resource_unref [none, some { alloc_obj PP_RESOURCE_IMAGE_DATA with
          ref_cnt := 2, data := buf_ptr.owned }] 1 = outcome.ok tbl ∧
      ∀ obj2, tbl[(1 : Int).toNat]? = some (some obj2) →
        obj2.headers = false ∧ obj2.body = false ∧ obj2.url = false ∧
        obj2.data = buf_ptr.owned ∧ obj2.ref_cnt = 2 - 1 :=
  ⟨by decide, by decide,
    (payload_teardown_with_expunge
      [none, some { alloc_obj PP_RESOURCE_IMAGE_DATA with ref_cnt := 2, data := buf_ptr.owned }]
      1 { alloc_obj PP_RESOURCE_IMAGE_DATA with ref_cnt := 2, data := buf_ptr.owned }
      ⟨[client_call.registry (call.allocate PP_RESOURCE_IMAGE_DATA),
          client_call.store_payload 1 false false false true,
          client_call.registry (call.ref 1)], by decide⟩
      (by decide) rfl (Or.inr (Or.inl rfl))).2.2.1⟩

/-- C20: for every table and every handle, `pp_resource_unref` comes to an
end (with a table or with a fault, never with its budget used up), also when
the `url_loader` field of a response info names itself or closes a cycle: a
budget of one call more than the number of slots that hold an object is
enough, every larger budget gives the same result, and the table handed to a
nested call (the one with the current slot expunged) has one such slot less. -/
theorem unref_cascade_terminates (res_tbl : res_tbl_t) (resource : Int) :
    pp_resource_unref res_tbl resource ≠ outcome.out_of_fuel ∧
    pp_resource_unref_fuel (live_slots res_tbl + 1) res_tbl resource
      = pp_resource_unref res_tbl resource ∧
    (∀ fuel, live_slots res_tbl + 1 ≤ fuel →
      pp_resource_unref_fuel fuel res_tbl resource = pp_resource_unref res_tbl resource) ∧
    (∀ obj, 1 ≤ resource → resource < (res_tbl.length : Int) →
      res_tbl[resource.toNat]? = some (some obj) →
      live_slots (pp_resource_expunge res_tbl resource) + 1 = live_slots res_tbl) := by
  have hle := live_slots_le_length res_tbl
  have hterm := unref_fuel_terminates (live_slots res_tbl + 1) res_tbl resource (by omega)
  have hany : ∀ fuel, live_slots res_tbl + 1 ≤ fuel →
      pp_resource_unref_fuel fuel res_tbl resource
        = pp_resource_unref_fuel (live_slots res_tbl + 1) res_tbl resource := by
    intro fuel hf
    obtain ⟨k, hk⟩ : ∃ k, fuel = live_slots res_tbl + 1 + k := ⟨fuel - (live_slots res_tbl + 1),
      by omega⟩
    rw [hk]
    exact unref_fuel_add k _ _ _ hterm
  have hmain : pp_resource_unref res_tbl resource
      = pp_resource_unref_fuel (live_slots res_tbl + 1) res_tbl resource :=
    hany (res_tbl.length + 1) (by omega)
  refine ⟨?_, hmain.symm, ?_, ?_⟩
  · rw [hmain]; exact hterm
  · intro fuel hf
    rw [hmain]; exact hany fuel hf
  · intro obj h1 h2 hslot
    rw [expunge_in_range (out_of_range_eq_false.2 ⟨h1, h2⟩)]
    exact live_slots_set_none _ _ _ hslot

/-- Witness of C20: a response info at handle 1 whose `url_loader` field is 1:
the nested call finds the slot expunged and ends in a fault, not in an endless
recursion. -/
theorem unref_cascade_terminates_witness :
    pp_resource_unref
        [none, some { alloc_obj PP_RESOURCE_URL_RESPONSE_INFO with url_loader := 1 }] 1
      ≠ outcome.out_of_fuel ∧
    pp_resource_unref
        [none, some { alloc_obj PP_RESOURCE_URL_RESPONSE_INFO with url_loader := 1 }] 1
      = outcome.fault :=
  ⟨(unref_cascade_terminates
      [none, some { alloc_obj PP_RESOURCE_URL_RESPONSE_INFO with url_loader := 1 }] 1).1,
    by decide⟩

end PPResource
